import Mathlib

/-!
Verification of the PyLabRobot script-validation pipeline and the wetlab
results store of `biomni/tool/lab_automation.py`.

Source text is modelled as `List Char` (called `Str` below).  The script
transformer `_modify_script_for_testing` is embedded character-for-character:
Python's `str.replace` (leftmost, non-overlapping), `str.split("\n")`,
`"\n".join`, `str.strip()`, `str.startswith(...)` and `list.insert` are each
given executable Lean counterparts, and the two insertion-point scans are
transcribed line by line from the source.
-/

set_option maxRecDepth 40000

/-- Source text: Python strings modelled as lists of characters. -/
abbrev Str : Type := List Char

/-- Coerce a Lean string literal into the `List Char` model. -/
def str (s : String) : Str := s.toList

/-- Characters removed by Python's default `str.strip()` (ASCII whitespace). -/
def isPySpace (c : Char) : Bool :=
  c = ' ' || c = '\t' || c = '\n' || c = '\r' || c = '\x0b' || c = '\x0c'

/-- Python `str.strip()`: drop leading and trailing whitespace. -/
def pyStrip (l : Str) : Str :=
  ((l.dropWhile isPySpace).reverse.dropWhile isPySpace).reverse

/-- Python `line.strip().startswith((p1, p2, ...))`. -/
def startsWithAny (pats : List Str) (l : Str) : Bool :=
  pats.any (fun p => p.isPrefixOf (pyStrip l))

/-- Worker for `pyReplace`.  The first argument counts characters still to be
skipped after emitting a replacement; `0` means we are scanning for the next
occurrence.  Structured this way the recursion is structural in the text
argument, so the definition evaluates by kernel reduction. -/
def pyReplaceGo (pat rep : Str) : Nat → Str → Str
  | 0, [] => []
  | 0, c :: t =>
    if pat.isPrefixOf (c :: t) then rep ++ pyReplaceGo pat rep (pat.length - 1) t
    else c :: pyReplaceGo pat rep 0 t
  | _ + 1, [] => []
  | n + 1, _ :: t => pyReplaceGo pat rep n t

/-- Python `s.replace(pat, rep)`: replace every leftmost, non-overlapping
occurrence of `pat` by `rep`. -/
def pyReplace (pat rep s : Str) : Str := pyReplaceGo pat rep 0 s

/-- Python `s.split("\n")`.  Always returns at least one (possibly empty)
line; the separators are consumed. -/
def splitNL : Str → List Str
  | [] => [[]]
  | c :: t =>
    if c = '\n' then [] :: splitNL t
    else
      match splitNL t with
      | [] => [[c]]
      | l :: ls => (c :: l) :: ls

/-- Python `"\n".join(lines)`. -/
def joinNL : List Str → Str
  | [] => []
  | [l] => l
  | l :: ls => l ++ '\n' :: joinNL ls

/-- Python `lines.insert(i, x)`: insert before position `i`, appending when
`i` is past the end. -/
def insertAt {α : Type} (i : Nat) (x : α) (l : List α) : List α :=
  l.take i ++ x :: l.drop i

/-- The hardware-backend construction replaced by the transformer
(`replacements` in `_modify_script_for_testing`). -/
def hardwarePat : Str := str "STARBackend()"

/-- The simulation-backend construction substituted for the hardware one. -/
def simulationPat : Str := str "LiquidHandlerChatterboxBackend()"

/-- Patterns of the first branch of the import-insertion scan
(`line.strip().startswith(("from ", "import ", "#"))`). -/
def importCommentPats : List Str := [str "from ", str "import ", str "#"]

/-- Patterns that stop the import-insertion scan
(`line.strip().startswith(("async def", "def", "class", "if __name__"))`). -/
def defLinePats : List Str :=
  [str "async def", str "def", str "class", str "if __name__"]

/-- Patterns of the tracking-insertion scan (note: no `class` here). -/
def mainLinePats : List Str := [str "async def", str "def", str "if __name__"]

/-- The import line inserted for the simulation backend. -/
def simBackendImportLine : Str :=
  str "from pylabrobot.liquid_handling.backends import LiquidHandlerChatterboxBackend"

/-- The `tracking_setup` string for `enable_tracking = True`, transcribed
from the triple-quoted literal (leading newline and two trailing newlines
included). -/
def trackingSetupEnabled : Str :=
  str "\n# Enable PyLabRobot tracking for validation\ntry:\n    from pylabrobot.resources import set_tip_tracking, set_volume_tracking\n    set_tip_tracking(True)\n    set_volume_tracking(True)\nexcept ImportError:\n    pass  # Tracking not available in this PyLabRobot version\n\n"

/-- The `tracking_setup` string for `enable_tracking = False`. -/
def trackingSetupDisabled : Str :=
  str "\n# Disable PyLabRobot tracking for testing\ntry:\n    from pylabrobot.resources import set_tip_tracking, set_volume_tracking\n    set_tip_tracking(False)\n    set_volume_tracking(False)\nexcept ImportError:\n    pass  # Tracking not available in this PyLabRobot version\n\n"

/-- The import-insertion scan of `_modify_script_for_testing`: `i` is the
loop index, `acc` the `insert_at` accumulator.  Import/comment lines and all
other non-definition lines advance `insert_at` to `i + 1`; the first
definition-like line breaks the loop. -/
def importInsertScan : Nat → Nat → List Str → Nat
  | _, acc, [] => acc
  | i, acc, l :: ls =>
    if startsWithAny importCommentPats l then importInsertScan (i + 1) (i + 1) ls
    else if startsWithAny defLinePats l then acc
    else importInsertScan (i + 1) (i + 1) ls

/-- The `insert_at` position computed by the first scan. -/
def importInsertAt (ls : List Str) : Nat := importInsertScan 0 0 ls

/-- The tracking-insertion scan: `insert_index` starts at 0 and is set to the
index of the first `async def`/`def`/`if __name__` line, if any. -/
def trackingScan : Nat → List Str → Nat
  | _, [] => 0
  | i, l :: ls => if startsWithAny mainLinePats l then i else trackingScan (i + 1) ls

/-- The `insert_index` position computed by the second scan. -/
def trackingInsertAt (ls : List Str) : Nat := trackingScan 0 ls

/-- Embedding of `_modify_script_for_testing`: backend replacement, then the
simulation-backend import insertion, then the tracking-snippet insertion. -/
def modifyScriptForTesting (scriptContent : Str) (enableTracking : Bool) : Str :=
  let m1 := pyReplace hardwarePat simulationPat scriptContent
  let lines1 := splitNL m1
  let lines1' := insertAt (importInsertAt lines1) simBackendImportLine lines1
  let m2 := joinNL lines1'
  let trackingSetup := if enableTracking then trackingSetupEnabled else trackingSetupDisabled
  let lines2 := splitNL m2
  let lines2' := insertAt (trackingInsertAt lines2) trackingSetup lines2
  joinNL lines2'

/-- The line list of the source after backend replacement, as seen by the
first insertion scan. -/
def replacedLines (s : Str) : List Str :=
  splitNL (pyReplace hardwarePat simulationPat s)

/-- The line list right after the import insertion. -/
def importStageLines (s : Str) : List Str :=
  insertAt (importInsertAt (replacedLines s)) simBackendImportLine (replacedLines s)

/-- The line list re-split from the joined text, as seen by the second
(tracking) insertion scan. -/
def trackingStageLines (s : Str) : List Str :=
  splitNL (joinNL (importStageLines s))

/-!
Claim-side definitions for the script transformer: the bracket-depth measure
used to formalise "the insertion point splits a multi-line statement", and
the spec's description of the import-insertion boundary.
-/

/-- Opening brackets that continue a Python statement across lines. -/
def isOpenBracket (c : Char) : Bool := c = '(' || c = '[' || c = '\x7b'

/-- Closing brackets. -/
def isCloseBracket (c : Char) : Bool := c = ')' || c = ']' || c = '\x7d'

/-- Net bracket count of one line. -/
def lineNet (l : Str) : Int :=
  (l.countP isOpenBracket : Int) - (l.countP isCloseBracket : Int)

/-- Bracket depth in force just before line `i`: the sum of the net bracket
counts of the lines above it.  Inserting a new line at positive depth places
it strictly inside a bracket-continued multi-line statement. -/
def depthBefore (ls : List Str) (i : Nat) : Int :=
  ((ls.take i).map lineNet).sum

/-- Bracket depth at the import-insertion point chosen by the first scan. -/
def importInsertDepth (s : Str) : Int :=
  depthBefore (replacedLines s) (importInsertAt (replacedLines s))

/-- Bracket depth at the tracking-insertion point chosen by the second scan. -/
def trackingInsertDepth (s : Str) : Int :=
  depthBefore (trackingStageLines s) (trackingInsertAt (trackingStageLines s))

/-- Modelled from the claim/spec wording for the import-insertion point: the
boundary between the leading import/comment block and the first executable
statement, i.e. the last line index that follows only import/comment lines. -/
def specImportBoundary (ls : List Str) : Nat :=
  (ls.takeWhile (fun l => startsWithAny importCommentPats l)).length

/-!
Embedding of the validation pipeline `test_pylabrobot_script` together with
`_execute_script_safely` and `_create_test_result`.  Effects performed by
external collaborators — `ast.parse`, dynamic `__import__` resolution, the
worker thread running the script, the filesystem and the clock — are supplied
as an explicit environment; everything the source itself computes from their
results is transcribed from the code.
-/

/-- Outcome of `ast.parse`: `none` on success, the `SyntaxError` data
(`str(e)` and `e.lineno`) on failure. -/
structure SyntaxErr where
  msg : Str
  lineno : Nat
deriving DecidableEq

/-- Result dictionary of `_validate_pylabrobot_imports`: its error and
warning lists (the `success` entry is computed as `errors == []`). -/
structure ImportCheck where
  errors : List Str
  warnings : List Str
deriving DecidableEq

/-- The three operation counters shared by the execution summaries.  The
`liquid_transferred` float only ever carries the literal `0.0` (the source
never updates it), so an integer payload is an exact model. -/
structure Summary3 where
  operationsPerformed : Nat
  tipsUsed : Nat
  liquidTransferred : Nat
deriving DecidableEq

/-- The all-zero counters every summary starts from. -/
def zeroSummary3 : Summary3 := ⟨0, 0, 0⟩

/-- Value produced by `_run_script_with_monitoring` when it returns. -/
structure RunRes where
  summary : Summary3
  warnings : List Str
deriving DecidableEq

/-- Outcome of the worker thread inside `_execute_script_safely`:
the `thread.join(timeout)` either leaves the thread alive (`timeout`), or the
monitored run raised (`exnRaised`), or it finished with `result` either still
`None` or set (`completed`). -/
inductive RunOutcome where
  | timeout : RunOutcome
  | exnRaised (m : Str) : RunOutcome
  | completed (r : Option RunRes) : RunOutcome
deriving DecidableEq

/-- Outcome of the temporary-file preparation step followed by the run.
`prepFailed` means `tempfile.NamedTemporaryFile(...)`/`f.write` raised before
`temp_script_path` was bound. -/
inductive PrepOutcome where
  | prepFailed (m : Str) : PrepOutcome
  | prepared (run : RunOutcome) : PrepOutcome
deriving DecidableEq

/-- Return dictionary of `_execute_script_safely`. -/
structure ExecResult where
  success : Bool
  summary : Summary3
  errors : List Str
  warnings : List Str
deriving DecidableEq

/-- Decimal rendering of a number, for the f-string messages. -/
def natToStr (n : Nat) : Str := (Nat.repr n).toList

/-- Message `f"Script execution timed out after {timeout_seconds} seconds"`. -/
def timeoutMessage (t : Nat) : Str :=
  str "Script execution timed out after " ++ natToStr t ++ str " seconds"

/-- Message `f"Script execution failed: {str(e)}"`. -/
def execFailedMessage (m : Str) : Str := str "Script execution failed: " ++ m

/-- Message appended when the worker set no result. -/
def noResultMessage : Str := str "Script execution completed but returned no result"

/-- Message of the `UnboundLocalError` raised by the `finally` cleanup when
the preparation step failed: `os.unlink(temp_script_path)` touches a local
that was never bound, and `except OSError` does not catch it. -/
def tempPathUnboundMessage : Str :=
  str "local variable 'temp_script_path' referenced before assignment"

/-- Embedding of `_execute_script_safely`.  When preparation fails the
`finally` block raises an `UnboundLocalError` (modelled as `.error`), because
`temp_script_path` was never assigned and the cleanup `try` only catches
`OSError`; in every other case the function returns a result dictionary. -/
def execScriptSafely (out : PrepOutcome) (timeoutSeconds : Nat) : Except Str ExecResult :=
  match out with
  | .prepFailed _ => .error tempPathUnboundMessage
  | .prepared .timeout =>
    .ok ⟨false, zeroSummary3, [timeoutMessage timeoutSeconds], []⟩
  | .prepared (.exnRaised m) =>
    .ok ⟨false, zeroSummary3, [execFailedMessage m], []⟩
  | .prepared (.completed none) =>
    .ok ⟨false, zeroSummary3, [noResultMessage], []⟩
  | .prepared (.completed (some r)) =>
    .ok ⟨true, r.summary, [], r.warnings⟩

/-- Claim-side predicate: the worker thread finished within the timeout. -/
def noTimeout : PrepOutcome → Bool
  | .prepared .timeout => false
  | _ => true

/-- Claim-side predicate: the monitored run raised no exception. -/
def noRunException : PrepOutcome → Bool
  | .prepared (.exnRaised _) => false
  | _ => true

/-- Claim-side predicate: the monitored run returned a non-null result. -/
def gotResult : PrepOutcome → Bool
  | .prepared (.completed (some _)) => true
  | _ => false

/-- How `test_pylabrobot_script` resolved `script_input`: treated as inline
content, recognised as a file path (with the read outcome), or the heuristic
itself raised. -/
inductive InputResolution where
  | asString (content : Str) : InputResolution
  | asFile (path : Str) (readResult : Except Str Str) : InputResolution
  | processError (m : Str) : InputResolution

/-- The `test_results` dictionary of the pipeline. -/
structure TestResultsFlags where
  syntaxValid : Bool
  importsValid : Bool
  simulationSuccessful : Bool
  trackingEnabled : Bool
  inputType : Option Str
  filePath : Option Str
deriving DecidableEq

/-- The `execution_summary` dictionary, after `_create_test_result` added
`total_execution_time`. -/
structure ExecutionSummary where
  operationsPerformed : Nat
  tipsUsed : Nat
  liquidTransferred : Nat
  executionTime : Nat
  totalExecutionTime : Nat
deriving DecidableEq

/-- The structured result returned by `test_pylabrobot_script`. -/
structure TestReport where
  success : Bool
  testResults : TestResultsFlags
  executionSummary : ExecutionSummary
  errors : List Str
  warnings : List Str
  testReportPath : Option Str
deriving DecidableEq

/-- Environment of external effects for one pipeline invocation. -/
structure PipelineEnv where
  inputRes : InputResolution
  parse : Str → Option SyntaxErr
  importCheck : Str → ImportCheck
  execOutcome : Str → PrepOutcome
  saveOutcome : Except Str Str
  elapsed : Nat

/-- Message `f"Syntax Error: {str(e)} at line {e.lineno}"`. -/
def syntaxErrorMessage (e : SyntaxErr) : Str :=
  str "Syntax Error: " ++ e.msg ++ str " at line " ++ natToStr e.lineno

/-- Message `"Script content is empty"`. -/
def emptyContentMessage : Str := str "Script content is empty"

/-- Message `f"Failed to read script file '{script_input}': {str(e)}"`. -/
def readFailMessage (path m : Str) : Str :=
  str "Failed to read script file '" ++ path ++ str "': " ++ m

/-- Message `f"Failed to process script input: {str(e)}"`. -/
def processFailMessage (m : Str) : Str :=
  str "Failed to process script input: " ++ m

/-- Message `f"Unexpected error during testing: {str(e)}"`. -/
def unexpectedErrorMessage (m : Str) : Str :=
  str "Unexpected error during testing: " ++ m

/-- Message `f"Failed to save test report: {str(e)}"`. -/
def failedSaveMessage (m : Str) : Str :=
  str "Failed to save test report: " ++ m

/-- Embedding of `_create_test_result`: stamp the total elapsed time, then
optionally persist the report.  The persistence warning lands in the returned
result because the mutated `warnings` list is the very object stored in it;
on a write failure no `test_report_path` is recorded. -/
def createTestResult (success : Bool) (tr : TestResultsFlags) (es : ExecutionSummary)
    (errors warnings : List Str) (elapsed : Nat) (saveTestReport : Bool)
    (saveOutcome : Except Str Str) : TestReport :=
  let es' := { es with totalExecutionTime := elapsed }
  if saveTestReport then
    match saveOutcome with
    | .ok path =>
      ⟨success, tr, es', errors, warnings, some path⟩
    | .error m =>
      ⟨success, tr, es', errors, warnings ++ [failedSaveMessage m], none⟩
  else
    ⟨success, tr, es', errors, warnings, none⟩

/-- The `test_results` value before any stage has run. -/
def initialFlags (enableTracking : Bool) : TestResultsFlags :=
  ⟨false, false, false, enableTracking, none, none⟩

/-- The `execution_summary` value before any stage has run. -/
def initialSummary : ExecutionSummary := ⟨0, 0, 0, 0, 0⟩

/-- Stages 1-4 of `test_pylabrobot_script`, entered once `script_content` has
been resolved: empty check, syntax validation, import validation, script
transformation and sandboxed execution, then `_create_test_result`.  An
exception escaping `_execute_script_safely` is caught by the surrounding
`except Exception` and recorded as an "Unexpected error" entry. -/
def testPipelineStages (env : PipelineEnv) (enableTracking : Bool)
    (timeoutSeconds : Nat) (saveTestReport : Bool)
    (tr1 : TestResultsFlags) (content : Str) : TestReport :=
  if (pyStrip content).isEmpty then
    createTestResult false tr1 initialSummary [emptyContentMessage] []
      env.elapsed saveTestReport env.saveOutcome
  else
    match env.parse content with
    | some e =>
      createTestResult false tr1 initialSummary [syntaxErrorMessage e] []
        env.elapsed saveTestReport env.saveOutcome
    | none =>
      let tr2 := { tr1 with syntaxValid := true }
      let ic := env.importCheck content
      let tr3 := { tr2 with importsValid := ic.errors.isEmpty }
      let errs1 : List Str := if ic.errors.isEmpty then [] else ic.errors
      let warns1 : List Str := if ic.errors.isEmpty then [] else ic.warnings
      let modified := modifyScriptForTesting content enableTracking
      match execScriptSafely (env.execOutcome modified) timeoutSeconds with
      | .error m =>
        createTestResult false tr3 initialSummary
          (errs1 ++ [unexpectedErrorMessage m]) warns1
          env.elapsed saveTestReport env.saveOutcome
      | .ok er =>
        let tr4 := { tr3 with simulationSuccessful := er.success }
        let es1 := { initialSummary with
          operationsPerformed := er.summary.operationsPerformed,
          tipsUsed := er.summary.tipsUsed,
          liquidTransferred := er.summary.liquidTransferred }
        let errs2 := errs1 ++ (if er.success then [] else er.errors)
        let warns2 := warns1 ++ er.warnings
        let overall := tr4.syntaxValid && tr4.importsValid && tr4.simulationSuccessful
        createTestResult overall tr4 es1 errs2 warns2
          env.elapsed saveTestReport env.saveOutcome

/-- Embedding of `test_pylabrobot_script`: resolve the submission, then run
the validation stages. -/
def testPylabrobotScript (env : PipelineEnv) (enableTracking : Bool)
    (timeoutSeconds : Nat) (saveTestReport : Bool) : TestReport :=
  match env.inputRes with
  | .processError m =>
    createTestResult false (initialFlags enableTracking) initialSummary
      [processFailMessage m] [] env.elapsed saveTestReport env.saveOutcome
  | .asFile path (.error m) =>
    createTestResult false (initialFlags enableTracking) initialSummary
      [readFailMessage path m] [] env.elapsed saveTestReport env.saveOutcome
  | .asFile path (.ok content) =>
    testPipelineStages env enableTracking timeoutSeconds saveTestReport
      { initialFlags enableTracking with
        inputType := some (str "file"), filePath := some path } content
  | .asString content =>
    testPipelineStages env enableTracking timeoutSeconds saveTestReport
      { initialFlags enableTracking with inputType := some (str "string") } content

/-- The source text the pipeline ends up validating, if resolution succeeded. -/
def resolvedContent : InputResolution → Option Str
  | .asString s => some s
  | .asFile _ (.ok s) => some s
  | _ => none

/-- The failure message of the report-save step, when persistence was
requested and failed. -/
def saveFailureMessages (saveTestReport : Bool) (so : Except Str Str) : List Str :=
  if saveTestReport then
    match so with
    | .error m => [failedSaveMessage m]
    | .ok _ => []
  else []

/-- The failure messages of the execution step: an "Unexpected error" entry
when the runner raised, the runner's error entries when it returned failure. -/
def execFailureMessages (env : PipelineEnv) (enableTracking : Bool)
    (timeoutSeconds : Nat) (content : Str) : List Str :=
  match execScriptSafely
      (env.execOutcome (modifyScriptForTesting content enableTracking))
      timeoutSeconds with
  | .error m => [unexpectedErrorMessage m]
  | .ok er => if er.success then [] else er.errors

/-- Modelled from the claim wording of C6: the messages of every internal
failure occurring in the stages run on resolved content — empty content,
syntax error, import errors and import warnings (each warning records an
exception-throwing lookup), and execution failures. -/
def runStageMessages (env : PipelineEnv) (enableTracking : Bool)
    (timeoutSeconds : Nat) (content : Str) : List Str :=
  if (pyStrip content).isEmpty then [emptyContentMessage]
  else
    match env.parse content with
    | some e => [syntaxErrorMessage e]
    | none =>
      ((env.importCheck content).errors ++ (env.importCheck content).warnings) ++
        execFailureMessages env enableTracking timeoutSeconds content

/-- The stage failure messages the pipeline actually records: as
`runStageMessages`, except that the import stage's entries are kept only when
it produced errors (the code extends the shared lists only under
`if not import_results["success"]`, discarding warnings otherwise). -/
def recordedStageMessages (env : PipelineEnv) (enableTracking : Bool)
    (timeoutSeconds : Nat) (content : Str) : List Str :=
  if (pyStrip content).isEmpty then [emptyContentMessage]
  else
    match env.parse content with
    | some e => [syntaxErrorMessage e]
    | none =>
      (if (env.importCheck content).errors.isEmpty then []
        else (env.importCheck content).errors ++ (env.importCheck content).warnings) ++
        execFailureMessages env enableTracking timeoutSeconds content

/-- Modelled from the claim wording of C6: the messages of every internal
failure that occurs during one invocation, following the pipeline's control
flow — resolution failure, then the stage failures, then the report-save
failure. -/
def runFailureMessages (env : PipelineEnv) (enableTracking : Bool)
    (timeoutSeconds : Nat) (saveTestReport : Bool) : List Str :=
  (match env.inputRes with
    | .processError m => [processFailMessage m]
    | .asFile path (.error m) => [readFailMessage path m]
    | .asFile _ (.ok content) => runStageMessages env enableTracking timeoutSeconds content
    | .asString content => runStageMessages env enableTracking timeoutSeconds content) ++
    saveFailureMessages saveTestReport env.saveOutcome

/-- The failure messages the pipeline actually records: as
`runFailureMessages` but with `recordedStageMessages` for the stages. -/
def recordedFailureMessages (env : PipelineEnv) (enableTracking : Bool)
    (timeoutSeconds : Nat) (saveTestReport : Bool) : List Str :=
  (match env.inputRes with
    | .processError m => [processFailMessage m]
    | .asFile path (.error m) => [readFailMessage path m]
    | .asFile _ (.ok content) =>
      recordedStageMessages env enableTracking timeoutSeconds content
    | .asString content =>
      recordedStageMessages env enableTracking timeoutSeconds content) ++
    saveFailureMessages saveTestReport env.saveOutcome

/-!
Embedding of the wetlab results store.  The SQL statements of
`_ensure_wetlab_table`, `upsert_wetlab_results` and `query_wetlab_results`
are interpreted over a list-of-rows table model: the `UNIQUE` composite key
constraint makes `ON CONFLICT ... DO UPDATE` update the single conflicting
row in place, and `SELECT ... ORDER BY measured_at DESC, result_id DESC
LIMIT ?` sorts the matching rows and truncates.  The `REAL` measurement
column only ever stores and returns the inserted value unchanged, so an
integer payload models it exactly; the `CURRENT_TIMESTAMP` audit columns
(`created_at`/`updated_at`) come from the database clock and are not
modelled.
-/

/-- The five-field composite key `(experiment_id, sample_id, assay_name,
condition, replicate)`. -/
structure WetlabKey where
  experimentId : Str
  sampleId : Str
  assayName : Str
  condition : Str
  replicate : Int
deriving DecidableEq

/-- One stored row of the `wetlab_results` table. -/
structure WetlabRow where
  resultId : Nat
  experimentId : Str
  sampleId : Str
  assayName : Str
  condition : Str
  replicate : Int
  measurementValue : Int
  measurementUnit : Str
  operator : Option Str
  instrument : Option Str
  measuredAt : Str
  notes : Option Str
deriving DecidableEq

/-- Key of a stored row. -/
def rowKey (r : WetlabRow) : WetlabKey :=
  ⟨r.experimentId, r.sampleId, r.assayName, r.condition, r.replicate⟩

/-- An input record that passed the required-field check of
`upsert_wetlab_results`; field conversions (`str(...).strip()`,
`int(...)`, `float(...)`) are applied when the `VALUES` tuple is built. -/
structure WetlabRecord where
  experimentId : Str
  sampleId : Str
  assayName : Str
  condition : Str
  replicate : Int
  measurementValue : Int
  measurementUnit : Str
  operator : Option Str
  instrument : Option Str
  measuredAt : Str
  notes : Option Str
deriving DecidableEq

/-- Key of an input record after the `str(...).strip()` conversions of the
`VALUES` tuple. -/
def recordKey (r : WetlabRecord) : WetlabKey :=
  ⟨pyStrip r.experimentId, pyStrip r.sampleId, pyStrip r.assayName,
    pyStrip r.condition, r.replicate⟩

/-- The `AUTOINCREMENT` id for a fresh row: strictly larger than every id in
the table. -/
def nextResultId (t : List WetlabRow) : Nat :=
  (t.map (fun r => r.resultId)).foldr max 0 + 1

/-- The `DO UPDATE SET` clause: overwrite the non-key columns of the
conflicting row with the excluded record's converted values. -/
def applyConflictUpdate (row : WetlabRow) (r : WetlabRecord) : WetlabRow :=
  { row with
    measurementValue := r.measurementValue,
    measurementUnit := pyStrip r.measurementUnit,
    operator := r.operator.map pyStrip,
    instrument := r.instrument.map pyStrip,
    measuredAt := pyStrip r.measuredAt,
    notes := r.notes }

/-- The fresh row inserted when no row carries the record's key. -/
def freshRow (t : List WetlabRow) (r : WetlabRecord) : WetlabRow :=
  ⟨nextResultId t, pyStrip r.experimentId, pyStrip r.sampleId,
    pyStrip r.assayName, pyStrip r.condition, r.replicate,
    r.measurementValue, pyStrip r.measurementUnit, r.operator.map pyStrip,
    r.instrument.map pyStrip, pyStrip r.measuredAt, r.notes⟩

/-- One `INSERT ... ON CONFLICT(...) DO UPDATE` execution of
`upsert_wetlab_results` against the table. -/
def upsertWetlabRecord (t : List WetlabRow) (r : WetlabRecord) : List WetlabRow :=
  if t.any (fun row => decide (rowKey row = recordKey r)) then
    t.map (fun row => if rowKey row = recordKey r then applyConflictUpdate row r else row)
  else
    t ++ [freshRow t r]

/-- The table invariant enforced by the schema's `UNIQUE` composite key. -/
def uniqueKeys (t : List WetlabRow) : Prop :=
  t.Pairwise (fun a b => rowKey a ≠ rowKey b)

/-- Filters accepted by `query_wetlab_results`: the eight whitelisted
equality fields plus the `measured_at` range bounds; `none` means the filter
is absent. -/
structure WetlabFilters where
  experimentId : Option Str
  sampleId : Option Str
  assayName : Option Str
  condition : Option Str
  replicate : Option Int
  measurementUnit : Option Str
  operator : Option Str
  instrument : Option Str
  measuredAtFrom : Option Str
  measuredAtTo : Option Str
deriving DecidableEq

/-- The all-absent filter set (`filters = None`). -/
def noFilters : WetlabFilters :=
  ⟨none, none, none, none, none, none, none, none, none, none⟩

/-- Equality filter on a `TEXT NOT NULL` column. -/
def optMatch (f : Option Str) (v : Str) : Bool :=
  match f with
  | none => true
  | some x => v = x

/-- Equality filter on a nullable `TEXT` column (`col = ?` is false on NULL). -/
def optMatchNullable (f : Option Str) (v : Option Str) : Bool :=
  match f with
  | none => true
  | some x => v = some x

/-- Lexicographic (byte-wise) string comparison, as SQLite's default `TEXT`
collation orders `measured_at`. -/
def strLe : Str → Str → Bool
  | [], _ => true
  | _ :: _, [] => false
  | a :: s, b :: t => if a = b then strLe s t else decide (a < b)

/-- The `WHERE` clause of `query_wetlab_results`. -/
def rowMatches (f : WetlabFilters) (row : WetlabRow) : Bool :=
  optMatch f.experimentId row.experimentId &&
  optMatch f.sampleId row.sampleId &&
  optMatch f.assayName row.assayName &&
  optMatch f.condition row.condition &&
  (match f.replicate with
   | none => true
   | some n => row.replicate = n) &&
  optMatch f.measurementUnit row.measurementUnit &&
  optMatchNullable f.operator row.operator &&
  optMatchNullable f.instrument row.instrument &&
  (match f.measuredAtFrom with
   | none => true
   | some d => strLe d row.measuredAt) &&
  (match f.measuredAtTo with
   | none => true
   | some d => strLe row.measuredAt d)

/-- Ordering of the result set: `measured_at DESC, result_id DESC`. -/
def rowBefore (a b : WetlabRow) : Bool :=
  if a.measuredAt = b.measuredAt then decide (b.resultId ≤ a.resultId)
  else strLe b.measuredAt a.measuredAt

/-- Insertion step of the sort. -/
def insertOrd {α : Type} (le : α → α → Bool) (x : α) : List α → List α
  | [] => [x]
  | y :: ys => if le x y then x :: y :: ys else y :: insertOrd le x ys

/-- Insertion sort by the given relation. -/
def sortOrd {α : Type} (le : α → α → Bool) : List α → List α
  | [] => []
  | x :: xs => insertOrd le x (sortOrd le xs)

/-- The rows matching the filters, in table order. -/
def matchingRows (t : List WetlabRow) (f : WetlabFilters) : List WetlabRow :=
  t.filter (rowMatches f)

/-- The row set returned by `query_wetlab_results`: clamp the limit with
`max(1, int(limit))`, filter, order, truncate. -/
def queryWetlabRows (t : List WetlabRow) (f : WetlabFilters) (lim : Int) : List WetlabRow :=
  let lim' : Int := max 1 lim
  (sortOrd rowBefore (matchingRows t f)).take lim'.toNat

/-!
Concrete inputs used by counterexamples and witnesses.
-/

/-- A source whose only definition-like line is the continuation line of a
parenthesised conditional expression: `x = (1\nif __name__ == y else 2)`. -/
def c1Source : Str := str "x = (1\nif __name__ == y else 2)"

/-- A well-behaved source for the amended transformer claims. -/
def c1GoodSource : Str := str "import os\nx = 1\ndef main():\n    y = 2"

/-- Lines whose first executable statement is not a definition line. -/
def c2Lines : List Str := [str "x = 1", str "def f(): pass"]

/-- A concrete wetlab record for the C9 witness. -/
def c9r1 : WetlabRecord :=
  ⟨str "E1", str "S1", str "A", str "C", 1, 10, str "uM", none, none,
    str "2024-01-01", none⟩

/-- The same composite key as `c9r1` with a different measurement value. -/
def c9r2 : WetlabRecord := { c9r1 with measurementValue := 20 }

/-- A concrete stored row for the C10 witness. -/
def c10Row : WetlabRow :=
  ⟨1, str "E1", str "S1", str "A", str "C", 1, 10, str "uM", none, none,
    str "2024-01-01", none⟩

/-- A pipeline environment whose import stage produces a warning but no
error, whose script parses, and whose execution succeeds. -/
def c6Env : PipelineEnv where
  inputRes := .asString (str "x = 1")
  parse := fun _ => none
  importCheck := fun _ => ⟨[], [str "w"]⟩
  execOutcome := fun _ => .prepared (.completed (some ⟨zeroSummary3, []⟩))
  saveOutcome := .ok (str "/tmp/report.json")
  elapsed := 0

/-- A pipeline environment whose import stage fails and whose report save
fails, for the amended-C6 witness. -/
def c6wEnv : PipelineEnv where
  inputRes := .asString (str "x = 1")
  parse := fun _ => none
  importCheck := fun _ => ⟨[str "imperr"], [str "impwarn"]⟩
  execOutcome := fun _ => .prepared .timeout
  saveOutcome := .error (str "disk full")
  elapsed := 0

/-- The syntax error used by the C3 witness. -/
def c3Err : SyntaxErr := ⟨str "invalid syntax", 1⟩

/-- A pipeline environment whose submission fails to parse. -/
def c3Env : PipelineEnv where
  inputRes := .asString (str "def f(:")
  parse := fun _ => some c3Err
  importCheck := fun _ => ⟨[], []⟩
  execOutcome := fun _ => .prepared (.completed (some ⟨zeroSummary3, []⟩))
  saveOutcome := .ok (str "/tmp/report.json")
  elapsed := 0

/-- A pipeline environment whose import stage fails but whose execution
succeeds, for the C4 witness. -/
def c4Env : PipelineEnv where
  inputRes := .asString (str "import pylabrobot.bogus")
  parse := fun _ => none
  importCheck := fun _ =>
    ⟨[str "Failed to import 'pylabrobot.bogus': No module named 'pylabrobot'"],
      [str "wimp"]⟩
  execOutcome := fun _ => .prepared (.completed (some ⟨⟨0, 0, 0⟩, [str "wexec"]⟩))
  saveOutcome := .ok (str "/tmp/report.json")
  elapsed := 0

/-!
General list lemmas: decompositions of prefixes, suffixes and infixes of an
append, and facts about `splitNL`, `joinNL` and `insertAt`.
-/

theorem prefix_append_cases {α : Type} {p u v : List α} (h : p <+: u ++ v) :
    p <+: u ∨ ∃ b, b <+: v ∧ p = u ++ b := by
  induction u generalizing p with
  | nil => exact Or.inr ⟨p, by simpa using h, rfl⟩
  | cons c u ih =>
    rcases List.prefix_cons_iff.mp h with h0 | ⟨t, rfl, ht⟩
    · subst h0; exact Or.inl List.nil_prefix
    · rcases ih ht with h1 | ⟨b, hb, rfl⟩
      · exact Or.inl (List.cons_prefix_cons.mpr ⟨rfl, h1⟩)
      · exact Or.inr ⟨b, hb, rfl⟩

theorem suffix_append_cases {α : Type} {t u v : List α} (h : t <:+ u ++ v) :
    t <:+ v ∨ ∃ a, a ≠ [] ∧ a <:+ u ∧ t = a ++ v := by
  induction u with
  | nil => exact Or.inl (by simpa using h)
  | cons c u ih =>
    rcases List.suffix_cons_iff.mp h with rfl | h2
    · exact Or.inr ⟨c :: u, by simp, List.suffix_refl _, by simp⟩
    · rcases ih h2 with h3 | ⟨a, ha, hsuf, rfl⟩
      · exact Or.inl h3
      · exact Or.inr ⟨a, ha, hsuf.trans (List.suffix_cons c u), rfl⟩

theorem infix_append_cases {α : Type} {p u v : List α} (h : p <:+: u ++ v) :
    p <:+: u ∨ p <:+: v ∨
      ∃ a b, a ≠ [] ∧ b ≠ [] ∧ a <:+ u ∧ b <+: v ∧ p = a ++ b := by
  rcases List.infix_iff_prefix_suffix.mp h with ⟨t, hpt, htuv⟩
  rcases suffix_append_cases htuv with hv | ⟨a, hane, hau, rfl⟩
  · exact Or.inr (Or.inl (List.infix_iff_prefix_suffix.mpr ⟨t, hpt, hv⟩))
  · rcases prefix_append_cases hpt with hpa | ⟨b, hbv, rfl⟩
    · exact Or.inl (List.infix_iff_prefix_suffix.mpr ⟨a, hpa, hau⟩)
    · rcases eq_or_ne b [] with rfl | hbne
      · exact Or.inl (by simpa using hau.isInfix)
      · exact Or.inr (Or.inr ⟨a, b, hane, hbne, hau, hbv, rfl⟩)

theorem infix_append_left {α : Type} (u : List α) {l v : List α} (h : l <:+: v) :
    l <:+: u ++ v := by
  rcases h with ⟨a, b, rfl⟩
  exact ⟨u ++ a, b, by simp⟩

theorem head_mem_of_occurrence {α : Type} {c : α} {p' x : List α} (h : (c :: p') <:+: x) :
    c ∈ x :=
  h.subset (List.mem_cons_self c p')

theorem headI_mem_of_ne_nil {α : Type} [Inhabited α] {l : List α} (h : l ≠ []) :
    l.headI ∈ l := by
  cases l with
  | nil => exact absurd rfl h
  | cons a t => exact List.mem_cons_self a t

/-! Unfolding equations for `pyReplace`. -/

theorem pyReplaceGo_skip (pat rep : Str) :
    ∀ (s : Str) (n : Nat), pyReplaceGo pat rep n s = pyReplaceGo pat rep 0 (s.drop n) := by
  intro s
  induction s with
  | nil => intro n; cases n <;> rfl
  | cons c t ih =>
    intro n
    cases n with
    | zero => rfl
    | succ m => simpa [pyReplaceGo] using ih m

theorem pyReplace_nil (pat rep : Str) : pyReplace pat rep [] = [] := rfl

theorem pyReplace_cons (pat rep : Str) (hp : pat ≠ []) (c : Char) (t : Str) :
    pyReplace pat rep (c :: t) =
      if pat.isPrefixOf (c :: t) then
        rep ++ pyReplace pat rep ((c :: t).drop pat.length)
      else c :: pyReplace pat rep t := by
  show pyReplaceGo pat rep 0 (c :: t) = _
  rw [show pyReplaceGo pat rep 0 (c :: t) =
      if pat.isPrefixOf (c :: t) then rep ++ pyReplaceGo pat rep (pat.length - 1) t
      else c :: pyReplaceGo pat rep 0 t from by simp [pyReplaceGo]]
  rcases List.exists_cons_of_ne_nil hp with ⟨p0, p', hpe⟩
  subst hpe
  by_cases hpre : (p0 :: p').isPrefixOf (c :: t) <;>
    simp [hpre, pyReplace, pyReplaceGo_skip]

/-! Facts about `splitNL`. -/

theorem splitNL_ne_nil : ∀ s : Str, splitNL s ≠ [] := by
  intro s
  induction s with
  | nil => simp [splitNL]
  | cons c t ih =>
    by_cases hc : c = '\n'
    · simp [splitNL, hc]
    · cases h : splitNL t with
      | nil => exact absurd h ih
      | cons l ls => simp [splitNL, hc, h]

theorem splitNL_cons_nl (t : Str) : splitNL ('\n' :: t) = [] :: splitNL t := by
  simp [splitNL]

theorem splitNL_cons_of_ne (c : Char) (t : Str) (hc : ¬ c = '\n') :
    splitNL (c :: t) = (c :: (splitNL t).headI) :: (splitNL t).tail := by
  cases h : splitNL t with
  | nil => exact absurd h (splitNL_ne_nil t)
  | cons l ls => simp [splitNL, hc, h]

theorem mem_splitNL_no_nl : ∀ (s l : Str), l ∈ splitNL s → '\n' ∉ l := by
  intro s
  induction s with
  | nil =>
    intro l hl
    simp [splitNL] at hl
    simp [hl]
  | cons c t ih =>
    intro l hl
    by_cases hc : c = '\n'
    · subst hc
      rw [splitNL_cons_nl] at hl
      rcases List.mem_cons.mp hl with rfl | hl'
      · simp
      · exact ih l hl'
    · rw [splitNL_cons_of_ne c t hc] at hl
      rcases List.mem_cons.mp hl with rfl | hl'
      · intro hmem
        rcases List.mem_cons.mp hmem with he | hmem'
        · exact hc he.symm
        · have hhead : (splitNL t).headI ∈ splitNL t :=
            headI_mem_of_ne_nil (splitNL_ne_nil t)
          exact ih _ hhead hmem'
      · exact ih l (List.mem_of_mem_tail hl')

theorem splitNL_head_starts : ∀ s : Str, (splitNL s).headI <+: s := by
  intro s
  induction s with
  | nil => simp [splitNL]
  | cons c t ih =>
    by_cases hc : c = '\n'
    · subst hc; rw [splitNL_cons_nl]; simp
    · rw [splitNL_cons_of_ne c t hc]
      exact List.cons_prefix_cons.mpr ⟨rfl, ih⟩

theorem mem_splitNL_occurrence : ∀ (s l : Str), l ∈ splitNL s → l <:+: s := by
  intro s
  induction s with
  | nil =>
    intro l hl
    simp [splitNL] at hl
    simp [hl]
  | cons c t ih =>
    intro l hl
    by_cases hc : c = '\n'
    · subst hc
      rw [splitNL_cons_nl] at hl
      rcases List.mem_cons.mp hl with rfl | hl'
      · simp
      · exact List.infix_cons (ih l hl')
    · rw [splitNL_cons_of_ne c t hc] at hl
      rcases List.mem_cons.mp hl with rfl | hl'
      · exact (List.cons_prefix_cons.mpr ⟨rfl, splitNL_head_starts t⟩).isInfix
      · exact List.infix_cons (ih l (List.mem_of_mem_tail hl'))

theorem prefix_splitNL_head : ∀ (s p : Str), p <+: s → '\n' ∉ p →
    p <+: (splitNL s).headI := by
  intro s
  induction s with
  | nil =>
    intro p hp _
    simpa [splitNL] using hp
  | cons c t ih =>
    intro p hp hnl
    cases p with
    | nil => exact List.nil_prefix
    | cons p0 p' =>
      rcases List.cons_prefix_cons.mp hp with ⟨rfl, hp'⟩
      have hc : ¬ p0 = '\n' := by
        intro he
        exact hnl (by simp [he])
      rw [splitNL_cons_of_ne p0 t hc]
      exact List.cons_prefix_cons.mpr ⟨rfl, ih p' hp' (fun hm => hnl (by simp [hm]))⟩

theorem infix_splitNL_exists : ∀ (s p : Str), p <:+: s → '\n' ∉ p →
    ∃ l ∈ splitNL s, p <:+: l := by
  intro s
  induction s with
  | nil =>
    intro p hp _
    refine ⟨[], by simp [splitNL], ?_⟩
    simpa using hp
  | cons c t ih =>
    intro p hp hnl
    by_cases hc : c = '\n'
    · subst hc
      rcases List.infix_cons_iff.mp hp with hpre | hinf
      · cases p with
        | nil => exact ⟨[], by simp [splitNL_cons_nl], by simp⟩
        | cons p0 p' =>
          rcases List.cons_prefix_cons.mp hpre with ⟨rfl, _⟩
          exact absurd (List.mem_cons_self _ _) hnl
      · rcases ih p hinf hnl with ⟨l, hl, hpl⟩
        exact ⟨l, by rw [splitNL_cons_nl]; exact List.mem_cons_of_mem _ hl, hpl⟩
    · rcases List.infix_cons_iff.mp hp with hpre | hinf
      · refine ⟨(splitNL (c :: t)).headI, headI_mem_of_ne_nil (splitNL_ne_nil _), ?_⟩
        exact (prefix_splitNL_head (c :: t) p hpre hnl).isInfix
      · rcases ih p hinf hnl with ⟨l, hl, hpl⟩
        rw [splitNL_cons_of_ne c t hc]
        cases hsp : splitNL t with
        | nil => exact absurd hsp (splitNL_ne_nil t)
        | cons hd tl =>
          rw [hsp] at hl
          rcases List.mem_cons.mp hl with rfl | hl'
          · exact ⟨c :: l, by simp [hsp], List.infix_cons hpl⟩
          · exact ⟨l, by simp [hsp, List.mem_cons_of_mem, hl'], hpl⟩

/-! Facts about `joinNL`. -/

theorem joinNL_cons (l : Str) (ls : List Str) (h : ls ≠ []) :
    joinNL (l :: ls) = l ++ '\n' :: joinNL ls := by
  cases ls with
  | nil => exact absurd rfl h
  | cons y ys => rfl

theorem mem_joinNL_occurrence : ∀ (ls : List Str) (l : Str), l ∈ ls → l <:+: joinNL ls := by
  intro ls
  induction ls with
  | nil => intro l hl; simp at hl
  | cons x xs ih =>
    intro l hl
    cases xs with
    | nil =>
      rcases List.mem_cons.mp hl with rfl | hl'
      · simp [joinNL]
      · simp at hl'
    | cons y ys =>
      rw [joinNL_cons x (y :: ys) (by simp)]
      rcases List.mem_cons.mp hl with rfl | hl'
      · exact (List.prefix_append l ('\n' :: joinNL (y :: ys))).isInfix
      · exact infix_append_left x (List.infix_cons (ih l hl'))

theorem infix_joinNL_split : ∀ (ls : List Str) (p : Str), p ≠ [] → '\n' ∉ p →
    p <:+: joinNL ls → ∃ l ∈ ls, p <:+: l := by
  intro ls
  induction ls with
  | nil =>
    intro p hne _ hp
    simp [joinNL] at hp
    exact absurd hp hne
  | cons x xs ih =>
    intro p hne hnl hp
    cases xs with
    | nil => exact ⟨x, by simp, by simpa [joinNL] using hp⟩
    | cons y ys =>
      rw [joinNL_cons x (y :: ys) (by simp)] at hp
      rcases infix_append_cases hp with hx | hrest | ⟨a, b, hane, hbne, _, hbpre, rfl⟩
      · exact ⟨x, by simp, hx⟩
      · rcases List.infix_cons_iff.mp hrest with hpre | hinf
        · cases p with
          | nil => exact absurd rfl hne
          | cons p0 p' =>
            rcases List.cons_prefix_cons.mp hpre with ⟨rfl, _⟩
            exact absurd (List.mem_cons_self _ _) hnl
        · rcases ih p hne hnl hinf with ⟨l, hl, hpl⟩
          exact ⟨l, List.mem_cons_of_mem _ hl, hpl⟩
      · cases b with
        | nil => exact absurd rfl hbne
        | cons b0 b' =>
          rcases List.cons_prefix_cons.mp hbpre with ⟨rfl, _⟩
          exact absurd (List.mem_append_right a (List.mem_cons_self _ _)) hnl

theorem splitNL_no_nl_single : ∀ l : Str, '\n' ∉ l → splitNL l = [l] := by
  intro l
  induction l with
  | nil => intro _; rfl
  | cons c t ih =>
    intro h
    have hc : ¬ c = '\n' := fun he => h (by simp [he])
    rw [splitNL_cons_of_ne c t hc, ih (fun hm => h (by simp [hm]))]
    simp

theorem splitNL_append_nl (l x : Str) (h : '\n' ∉ l) :
    splitNL (l ++ '\n' :: x) = l :: splitNL x := by
  induction l with
  | nil => simpa using splitNL_cons_nl x
  | cons c t ih =>
    have hc : ¬ c = '\n' := fun he => h (by simp [he])
    rw [List.cons_append, splitNL_cons_of_ne c (t ++ '\n' :: x) hc,
      ih (fun hm => h (by simp [hm]))]
    simp

theorem splitNL_joinNL : ∀ ls : List Str, ls ≠ [] → (∀ l ∈ ls, '\n' ∉ l) →
    splitNL (joinNL ls) = ls := by
  intro ls
  induction ls with
  | nil => intro h _; exact absurd rfl h
  | cons x xs ih =>
    intro _ hnl
    cases xs with
    | nil => simpa [joinNL] using splitNL_no_nl_single x (hnl x (by simp))
    | cons y ys =>
      rw [joinNL_cons x (y :: ys) (by simp),
        splitNL_append_nl x _ (hnl x (by simp)),
        ih (by simp) (fun l hl => hnl l (List.mem_cons_of_mem _ hl))]

/-! Facts about `insertAt`. -/

theorem mem_insertAt_self {α : Type} (i : Nat) (x : α) (l : List α) :
    x ∈ insertAt i x l := by
  simp [insertAt]

theorem mem_insertAt_of_mem {α : Type} {l : List α} {y : α} (i : Nat) (x : α)
    (h : y ∈ l) : y ∈ insertAt i x l := by
  unfold insertAt
  rw [← List.take_append_drop i l] at h
  rcases List.mem_append.mp h with h1 | h2
  · exact List.mem_append_left _ h1
  · exact List.mem_append_right _ (List.mem_cons_of_mem _ h2)

theorem eq_or_mem_of_mem_insertAt {α : Type} {l : List α} {y x : α} {i : Nat}
    (h : y ∈ insertAt i x l) : y = x ∨ y ∈ l := by
  unfold insertAt at h
  rcases List.mem_append.mp h with h1 | h2
  · exact Or.inr (List.take_subset i l h1)
  · rcases List.mem_cons.mp h2 with rfl | h3
    · exact Or.inl rfl
    · exact Or.inr (List.drop_subset i l h3)

theorem length_insertAt {α : Type} (i : Nat) (x : α) (l : List α) :
    (insertAt i x l).length = l.length + 1 := by
  simp [insertAt]
  omega

/-!
Occurrence lemmas for the backend replacement.  `hardwarePat` starts with
`'S'`, a character that appears neither in `simulationPat` nor in the
inserted lines, and `simulationPat` starts with `'L'`, a character absent
from `hardwarePat` — so replacements can neither leave nor create an
occurrence of the hardware pattern.
-/

theorem hardwarePat_ne_nil : hardwarePat ≠ [] := by decide

theorem hardwarePat_eq_cons : hardwarePat = 'S' :: str "TARBackend()" := by decide

theorem simulationPat_eq_cons :
    simulationPat = 'L' :: str "iquidHandlerChatterboxBackend()" := by decide

theorem pyReplace_prefix_rev :
    ∀ (n : Nat) (s p : Str), s.length ≤ n →
      p <+: pyReplace hardwarePat simulationPat s → 'L' ∉ p → p <+: s := by
  intro n
  induction n with
  | zero =>
    intro s p hlen hp _
    have hs : s = [] := List.eq_nil_of_length_eq_zero (Nat.le_zero.mp hlen)
    subst hs
    simpa [pyReplace_nil] using hp
  | succ n ih =>
    intro s p hlen hp hnl
    cases s with
    | nil => simpa [pyReplace_nil] using hp
    | cons c t =>
      rw [pyReplace_cons _ _ hardwarePat_ne_nil c t] at hp
      by_cases hpre : hardwarePat.isPrefixOf (c :: t)
      · rw [if_pos hpre] at hp
        rcases prefix_append_cases hp with hsim | ⟨b, _, rfl⟩
        · cases p with
          | nil => exact List.nil_prefix
          | cons p0 p' =>
            rw [simulationPat_eq_cons] at hsim
            rcases List.cons_prefix_cons.mp hsim with ⟨rfl, _⟩
            exact absurd (List.mem_cons_self _ _) hnl
        · have : 'L' ∈ simulationPat := by decide
          exact absurd (List.mem_append_left b this) hnl
      · rw [if_neg hpre] at hp
        cases p with
        | nil => exact List.nil_prefix
        | cons p0 p' =>
          rcases List.cons_prefix_cons.mp hp with ⟨rfl, hp'⟩
          have ht : t.length ≤ n := by
            simp only [List.length_cons] at hlen
            omega
          have := ih t p' ht hp' (fun hm => hnl (List.mem_cons_of_mem _ hm))
          exact List.cons_prefix_cons.mpr ⟨rfl, this⟩

theorem pyReplace_not_hard_start :
    ∀ (n : Nat) (s : Str), s.length ≤ n →
      ¬ hardwarePat <+: pyReplace hardwarePat simulationPat s := by
  intro n
  induction n with
  | zero =>
    intro s hlen hp
    have hs : s = [] := List.eq_nil_of_length_eq_zero (Nat.le_zero.mp hlen)
    subst hs
    rw [pyReplace_nil] at hp
    exact hardwarePat_ne_nil (List.prefix_nil.mp hp)
  | succ n ih =>
    intro s hlen hp
    cases s with
    | nil =>
      rw [pyReplace_nil] at hp
      exact hardwarePat_ne_nil (List.prefix_nil.mp hp)
    | cons c t =>
      rw [pyReplace_cons _ _ hardwarePat_ne_nil c t] at hp
      by_cases hpre : hardwarePat.isPrefixOf (c :: t)
      · rw [if_pos hpre] at hp
        rw [hardwarePat_eq_cons, simulationPat_eq_cons, List.cons_append] at hp
        have hSL : 'S' = 'L' := (List.cons_prefix_cons.mp hp).1
        exact absurd hSL (by decide)
      · rw [if_neg hpre] at hp
        rw [hardwarePat_eq_cons] at hp
        rcases List.cons_prefix_cons.mp hp with ⟨rfl, hp'⟩
        have hTL : 'L' ∉ str "TARBackend()" := by decide
        have := pyReplace_prefix_rev t.length t _ (Nat.le_refl _) hp' hTL
        have hct : hardwarePat <+: 'S' :: t := by
          rw [hardwarePat_eq_cons]
          exact List.cons_prefix_cons.mpr ⟨rfl, this⟩
        rw [← List.isPrefixOf_iff_prefix] at hct
        exact hpre hct

theorem pyReplace_no_hard_occurrence :
    ∀ (n : Nat) (s : Str), s.length ≤ n →
      ¬ hardwarePat <:+: pyReplace hardwarePat simulationPat s := by
  intro n
  induction n with
  | zero =>
    intro s hlen hp
    have hs : s = [] := List.eq_nil_of_length_eq_zero (Nat.le_zero.mp hlen)
    subst hs
    rw [pyReplace_nil] at hp
    exact hardwarePat_ne_nil (List.infix_nil.mp hp)
  | succ n ih =>
    intro s hlen hp
    cases s with
    | nil =>
      rw [pyReplace_nil] at hp
      exact hardwarePat_ne_nil (List.infix_nil.mp hp)
    | cons c t =>
      rw [pyReplace_cons _ _ hardwarePat_ne_nil c t] at hp
      by_cases hpre : hardwarePat.isPrefixOf (c :: t)
      · rw [if_pos hpre] at hp
        rcases infix_append_cases hp with hsim | hrest | ⟨a, b, hane, _, hasuf, _, heq⟩
        · have hS : 'S' ∈ simulationPat := hsim.subset (by
            rw [hardwarePat_eq_cons]; exact List.mem_cons_self _ _)
          exact absurd hS (by decide)
        · have hd : ((c :: t).drop hardwarePat.length).length ≤ n := by
            rw [List.length_drop, show hardwarePat.length = 13 from by decide]
            simp only [List.length_cons] at hlen ⊢
            omega
          exact ih _ hd hrest
        · have hpa : a <+: hardwarePat := heq ▸ List.prefix_append a b
          cases a with
          | nil => exact absurd rfl hane
          | cons a0 a' =>
            rw [hardwarePat_eq_cons] at hpa
            rcases List.cons_prefix_cons.mp hpa with ⟨rfl, _⟩
            have hS : 'S' ∈ simulationPat := hasuf.subset (List.mem_cons_self _ _)
            exact absurd hS (by decide)
      · rw [if_neg hpre] at hp
        rcases List.infix_cons_iff.mp hp with hpfx | hinf
        · have hcp : c :: pyReplace hardwarePat simulationPat t =
              pyReplace hardwarePat simulationPat (c :: t) := by
            rw [pyReplace_cons _ _ hardwarePat_ne_nil c t, if_neg hpre]
          rw [hcp] at hpfx
          exact pyReplace_not_hard_start (c :: t).length (c :: t) (Nat.le_refl _) hpfx
        · have ht : t.length ≤ n := by
            simp only [List.length_cons] at hlen
            omega
          exact ih t ht hinf

theorem pyReplace_sim_occurrence :
    ∀ (n : Nat) (s : Str), s.length ≤ n → hardwarePat <:+: s →
      simulationPat <:+: pyReplace hardwarePat simulationPat s := by
  intro n
  induction n with
  | zero =>
    intro s hlen hocc
    have hs : s = [] := List.eq_nil_of_length_eq_zero (Nat.le_zero.mp hlen)
    subst hs
    exact absurd (List.infix_nil.mp hocc) hardwarePat_ne_nil
  | succ n ih =>
    intro s hlen hocc
    cases s with
    | nil => exact absurd (List.infix_nil.mp hocc) hardwarePat_ne_nil
    | cons c t =>
      rw [pyReplace_cons _ _ hardwarePat_ne_nil c t]
      by_cases hpre : hardwarePat.isPrefixOf (c :: t)
      · rw [if_pos hpre]
        exact (List.prefix_append simulationPat _).isInfix
      · rw [if_neg hpre]
        rcases List.infix_cons_iff.mp hocc with hpfx | hinf
        · rw [← List.isPrefixOf_iff_prefix] at hpfx
          exact absurd hpfx hpre
        · have ht : t.length ≤ n := by
            simp only [List.length_cons] at hlen
            omega
          exact List.infix_cons (ih t ht hinf)

/-! Assembly facts for the transformer output. -/

theorem hard_no_nl : '\n' ∉ hardwarePat := by decide

theorem sim_no_nl : '\n' ∉ simulationPat := by decide

theorem importLine_no_S : 'S' ∉ simBackendImportLine := by decide

theorem trackingEnabled_no_S : 'S' ∉ trackingSetupEnabled := by decide

theorem trackingDisabled_no_S : 'S' ∉ trackingSetupDisabled := by decide

theorem modifyScript_eq (s : Str) (et : Bool) :
    modifyScriptForTesting s et =
      joinNL (insertAt (trackingInsertAt (trackingStageLines s))
        (if et then trackingSetupEnabled else trackingSetupDisabled)
        (trackingStageLines s)) := rfl

/-- C7.  For every source text containing a literal hardware-backend
construction `STARBackend()`, and for both tracking flags, the transformed
script contains no occurrence of `STARBackend()` and at least one occurrence
of the simulation-backend construction
`LiquidHandlerChatterboxBackend()`. -/
theorem claim7_backend_swap (s : Str) (et : Bool)
    (hocc : hardwarePat <:+: s) :
    ¬ hardwarePat <:+: modifyScriptForTesting s et ∧
      simulationPat <:+: modifyScriptForTesting s et := by
  have hm1 : ¬ hardwarePat <:+: pyReplace hardwarePat simulationPat s :=
    pyReplace_no_hard_occurrence s.length s (Nat.le_refl _)
  have hline1 : ∀ l ∈ replacedLines s, ¬ hardwarePat <:+: l := by
    intro l hl hc
    exact hm1 (hc.trans (mem_splitNL_occurrence _ l hl))
  have hline1' : ∀ l ∈ importStageLines s, ¬ hardwarePat <:+: l := by
    intro l hl hc
    rcases eq_or_mem_of_mem_insertAt hl with rfl | hmem
    · exact importLine_no_S (head_mem_of_occurrence (hardwarePat_eq_cons ▸ hc))
    · exact hline1 l hmem hc
  have hj1 : ¬ hardwarePat <:+: joinNL (importStageLines s) := by
    intro hc
    rcases infix_joinNL_split _ _ hardwarePat_ne_nil hard_no_nl hc with ⟨l, hl, hc'⟩
    exact hline1' l hl hc'
  have hline2 : ∀ l ∈ trackingStageLines s, ¬ hardwarePat <:+: l := by
    intro l hl hc
    exact hj1 (hc.trans (mem_splitNL_occurrence _ l hl))
  constructor
  · rw [modifyScript_eq]
    intro hc
    rcases infix_joinNL_split _ _ hardwarePat_ne_nil hard_no_nl hc with ⟨l, hl, hc'⟩
    rcases eq_or_mem_of_mem_insertAt hl with rfl | hmem
    · have hS := head_mem_of_occurrence (hardwarePat_eq_cons ▸ hc')
      cases et with
      | true => exact trackingEnabled_no_S (by simpa using hS)
      | false => exact trackingDisabled_no_S (by simpa using hS)
    · exact hline2 l hmem hc'
  · have hs1 : simulationPat <:+: pyReplace hardwarePat simulationPat s :=
      pyReplace_sim_occurrence s.length s (Nat.le_refl _) hocc
    obtain ⟨l, hl, hsl⟩ := infix_splitNL_exists _ _ hs1 sim_no_nl
    have hl' : l ∈ importStageLines s :=
      mem_insertAt_of_mem _ _ hl
    have hj : simulationPat <:+: joinNL (importStageLines s) :=
      hsl.trans (mem_joinNL_occurrence _ l hl')
    obtain ⟨l2, hl2, hsl2⟩ := infix_splitNL_exists _ _ hj sim_no_nl
    have hl2' : l2 ∈ insertAt (trackingInsertAt (trackingStageLines s))
        (if et then trackingSetupEnabled else trackingSetupDisabled)
        (trackingStageLines s) :=
      mem_insertAt_of_mem _ _ hl2
    rw [modifyScript_eq]
    exact hsl2.trans (mem_joinNL_occurrence _ l2 hl2')

/-- Witness for C7 at the concrete source `lh = STARBackend()`. -/
theorem claim7_backend_swap_witness :
    hardwarePat <:+: str "lh = STARBackend()" ∧
      (¬ hardwarePat <:+: modifyScriptForTesting (str "lh = STARBackend()") false ∧
        simulationPat <:+: modifyScriptForTesting (str "lh = STARBackend()") false) :=
  ⟨by decide, claim7_backend_swap (str "lh = STARBackend()") false (by decide)⟩

/-!
Characterisation of the two insertion-point scans and resolution of the
import-insertion claims: the first scan's fall-through branch advances
`insert_at` past every non-definition line, so the computed position is the
index of the first definition-like line, not the end of the leading
import/comment block.
-/

theorem importInsertScan_eq :
    ∀ (ls : List Str) (i : Nat),
      importInsertScan i i ls =
        i + ls.findIdx
          (fun l => !(startsWithAny importCommentPats l) && startsWithAny defLinePats l) := by
  intro ls
  induction ls with
  | nil => intro i; simp [importInsertScan]
  | cons l ls ih =>
    intro i
    simp only [List.findIdx_cons]
    by_cases himp : startsWithAny importCommentPats l
    · have hscan : importInsertScan i i (l :: ls) = importInsertScan (i + 1) (i + 1) ls := by
        simp [importInsertScan, himp]
      rw [hscan, ih (i + 1)]
      simp only [himp, Bool.not_true, Bool.false_and, cond_false]
      omega
    · by_cases hdef : startsWithAny defLinePats l
      · have hscan : importInsertScan i i (l :: ls) = i := by
          simp [importInsertScan, himp, hdef]
        rw [hscan]
        rw [Bool.not_eq_true] at himp
        simp only [himp, Bool.not_false, Bool.true_and, hdef, cond_true]
        omega
      · have hscan : importInsertScan i i (l :: ls) = importInsertScan (i + 1) (i + 1) ls := by
          simp [importInsertScan, himp, hdef]
        rw [hscan, ih (i + 1)]
        rw [Bool.not_eq_true] at hdef
        simp only [hdef, Bool.and_false, cond_false]
        omega

theorem trackingScan_eq :
    ∀ (ls : List Str) (i : Nat),
      trackingScan i ls =
        if ls.any (startsWithAny mainLinePats) then
          i + ls.findIdx (startsWithAny mainLinePats)
        else 0 := by
  intro ls
  induction ls with
  | nil => intro i; simp [trackingScan]
  | cons l ls ih =>
    intro i
    by_cases hm : startsWithAny mainLinePats l
    · have hscan : trackingScan i (l :: ls) = i := by simp [trackingScan, hm]
      rw [hscan]
      simp [List.any_cons, hm, List.findIdx_cons]
    · have hscan : trackingScan i (l :: ls) = trackingScan (i + 1) ls := by
        simp [trackingScan, hm]
      rw [hscan, ih (i + 1)]
      rw [Bool.not_eq_true] at hm
      simp only [List.any_cons, hm, Bool.false_or, List.findIdx_cons, cond_false]
      by_cases hany : ls.any (startsWithAny mainLinePats) = true
      · simp only [hany, if_true]
        omega
      · rw [Bool.not_eq_true] at hany
        simp only [hany, Bool.false_eq_true, if_false]

theorem defLine_not_importComment (l : Str)
    (h : startsWithAny defLinePats l = true) :
    startsWithAny importCommentPats l = false := by
  by_contra hne
  rw [Bool.not_eq_false] at hne
  rw [startsWithAny, List.any_eq_true] at h hne
  obtain ⟨p, hp, hpre⟩ := h
  obtain ⟨q, hq, hqre⟩ := hne
  rw [List.isPrefixOf_iff_prefix] at hpre hqre
  have hor := List.prefix_or_prefix_of_prefix hpre hqre
  simp only [defLinePats] at hp
  simp only [importCommentPats] at hq
  fin_cases hp <;> fin_cases hq <;> rcases hor with h1 | h1 <;> revert h1 <;> decide

theorem mainLine_subset_defLine (l : Str)
    (h : startsWithAny mainLinePats l = true) :
    startsWithAny defLinePats l = true := by
  rw [startsWithAny, List.any_eq_true] at h ⊢
  obtain ⟨p, hp, hpre⟩ := h
  refine ⟨p, ?_, hpre⟩
  simp only [mainLinePats] at hp
  fin_cases hp <;> decide

theorem importInsertAt_eq_findIdx (ls : List Str) :
    importInsertAt ls = ls.findIdx (startsWithAny defLinePats) := by
  have h := importInsertScan_eq ls 0
  rw [importInsertAt, h, Nat.zero_add]
  congr 1
  funext l
  by_cases hd : startsWithAny defLinePats l
  · rw [hd, defLine_not_importComment l hd]
    rfl
  · rw [Bool.not_eq_true] at hd
    rw [hd]
    simp

/-- C2 counterexample.  On the line list `["x = 1", "def f(): pass"]` the
boundary after the leading import/comment block (which is empty, so index 0)
differs from the position the code computes (index 1, after the executable
statement `x = 1`): the claimed insertion position is wrong. -/
theorem claim2_counterexample :
    importInsertAt c2Lines ≠ specImportBoundary c2Lines := by decide

/-- C2 amended.  The simulation-backend import line is inserted immediately
before the first line whose stripped form starts with `async def`, `def`,
`class` or `if __name__` — the index `List.findIdx` computes, which equals
the line count when no such line exists — regardless of any executable
statements before that point. -/
theorem claim2_amended (s : Str) :
    importStageLines s =
      insertAt (List.findIdx (startsWithAny defLinePats) (replacedLines s))
        simBackendImportLine (replacedLines s) := by
  rw [importStageLines, importInsertAt_eq_findIdx]

/-!
Resolution of C1: both insertion positions sit at bracket depth zero only
under extra assumptions.  The scans choose the first definition-like line,
and a continuation line of a bracketed multi-line statement may itself start
with `if __name__` (a parenthesised conditional expression), in which case
the import line is inserted inside the statement and the output no longer
parses.  `importInsertDepth`/`trackingInsertDepth` do not depend on
`enable_tracking`: the snippet is chosen after the insertion index is fixed.
-/

theorem importLine_not_mainLine :
    startsWithAny mainLinePats simBackendImportLine = false := by decide

theorem importLine_net_zero : lineNet simBackendImportLine = 0 := by decide

theorem importLine_no_nl : '\n' ∉ simBackendImportLine := by decide

theorem importStageLines_ne_nil (s : Str) : importStageLines s ≠ [] := by
  intro h
  have hlen := length_insertAt (importInsertAt (replacedLines s))
    simBackendImportLine (replacedLines s)
  rw [importStageLines] at h
  rw [h] at hlen
  simp at hlen

theorem trackingStageLines_eq_importStage (s : Str) :
    trackingStageLines s = importStageLines s := by
  rw [trackingStageLines]
  apply splitNL_joinNL _ (importStageLines_ne_nil s)
  intro l hl
  have hl' : l ∈ insertAt (importInsertAt (replacedLines s))
      simBackendImportLine (replacedLines s) := hl
  rcases eq_or_mem_of_mem_insertAt hl' with rfl | hmem
  · exact importLine_no_nl
  · exact mem_splitNL_no_nl _ l hmem

/-- C1 counterexample.  On `x = (1\nif __name__ == y else 2)` — a single
assignment whose parenthesised conditional expression spans two lines — both
scans choose the continuation line starting with `if __name__`, so both
insertions land at bracket depth 1, splitting the multi-line statement (the
emitted import line sits inside the parentheses, which is not valid Python). -/
theorem claim1_counterexample :
    ¬ (importInsertDepth c1Source = 0 ∧ trackingInsertDepth c1Source = 0) := by
  decide

/-- C1 amended.  If the replaced source is bracket-balanced overall and every
line whose stripped form starts with `async def`/`def`/`class`/`if __name__`
sits at bracket depth zero, then both insertion points sit at bracket depth
zero, i.e. neither insertion splits a bracket-continued multi-line statement.
The counterexample shows the depth-zero proviso cannot be dropped. -/
theorem claim1_amended (s : Str)
    (hbal : ((replacedLines s).map lineNet).sum = 0)
    (hdef : ∀ i : Nat, startsWithAny defLinePats ((replacedLines s).getD i []) = true →
      depthBefore (replacedLines s) i = 0) :
    importInsertDepth s = 0 ∧ trackingInsertDepth s = 0 := by
  constructor
  · rw [importInsertDepth, importInsertAt_eq_findIdx]
    rcases Nat.lt_or_ge ((replacedLines s).findIdx (startsWithAny defLinePats))
      (replacedLines s).length with hlt | hge
    · apply hdef
      rw [List.getD_eq_getElem?_getD, List.getElem?_eq_getElem hlt, Option.getD_some]
      exact @List.findIdx_getElem _ _ _ hlt
    · have heq : (replacedLines s).findIdx (startsWithAny defLinePats) =
          (replacedLines s).length :=
        Nat.le_antisymm (List.findIdx_le_length _) hge
      rw [heq]
      simp only [depthBefore, List.take_length]
      exact hbal
  · rw [trackingInsertDepth, trackingStageLines_eq_importStage, importStageLines,
      importInsertAt_eq_findIdx]
    simp only [insertAt, trackingInsertAt]
    set ls := replacedLines s with hls
    set k := ls.findIdx (startsWithAny defLinePats) with hk
    set A := ls.take k with hA
    set B := ls.drop k with hB
    have hkle : k ≤ ls.length := List.findIdx_le_length _
    have hAlen : A.length = k := by rw [hA, List.length_take]; omega
    rw [trackingScan_eq]
    by_cases hany : (A ++ simBackendImportLine :: B).any (startsWithAny mainLinePats) = true
    · rw [if_pos hany, Nat.zero_add, List.findIdx_append]
      by_cases hfA : A.findIdx (startsWithAny mainLinePats) < A.length
      · rw [if_pos hfA]
        set jA := A.findIdx (startsWithAny mainLinePats) with hjA
        have hjAk : jA < k := hAlen ▸ hfA
        have hjAls : jA < ls.length := lt_of_lt_of_le hjAk hkle
        have hp : startsWithAny mainLinePats A[jA] = true :=
          @List.findIdx_getElem _ _ _ hfA
        have hAg : A[jA] = ls[jA] := by
          simp [hA]
        have hpl : startsWithAny defLinePats (ls.getD jA []) = true := by
          rw [List.getD_eq_getElem?_getD, List.getElem?_eq_getElem hjAls, Option.getD_some]
          exact mainLine_subset_defLine _ (hAg ▸ hp)
        have hd0 := hdef jA hpl
        have heqd : depthBefore (A ++ simBackendImportLine :: B) jA = depthBefore ls jA := by
          simp only [depthBefore]
          rw [List.take_append_of_le_length (Nat.le_of_lt hfA), hA, List.take_take,
            Nat.min_eq_left (Nat.le_of_lt hjAk)]
        rw [heqd]
        exact hd0
      · rw [if_neg hfA, List.findIdx_cons, importLine_not_mainLine, cond_false]
        set jB := B.findIdx (startsWithAny mainLinePats) with hjB
        have hanyB : ∃ x ∈ B, startsWithAny mainLinePats x = true := by
          rcases List.any_eq_true.mp hany with ⟨x, hx, hpx⟩
          rcases List.mem_append.mp hx with hxA | hxB
          · exact absurd (List.findIdx_lt_length.mpr ⟨x, hxA, hpx⟩) hfA
          · rcases List.mem_cons.mp hxB with rfl | hxB'
            · rw [importLine_not_mainLine] at hpx
              exact absurd hpx (by simp)
            · exact ⟨x, hxB', hpx⟩
        have hjBlen : jB < B.length := List.findIdx_lt_length.mpr hanyB
        have hpB : startsWithAny mainLinePats B[jB] = true :=
          @List.findIdx_getElem _ _ _ hjBlen
        have hkjB : k + jB < ls.length := by
          rw [hB, List.length_drop] at hjBlen
          omega
        have hBg : B[jB] = ls[k + jB] := by
          simp [hB]
        have hpl : startsWithAny defLinePats (ls.getD (k + jB) []) = true := by
          rw [List.getD_eq_getElem?_getD, List.getElem?_eq_getElem hkjB, Option.getD_some]
          exact mainLine_subset_defLine _ (hBg ▸ hpB)
        have hd0 := hdef (k + jB) hpl
        have harith : jB + 1 + A.length = A.length + (jB + 1) := by omega
        have heqd : depthBefore (A ++ simBackendImportLine :: B) (jB + 1 + A.length)
            = depthBefore ls (k + jB) := by
          simp only [depthBefore]
          rw [harith, List.take_append, List.take_succ_cons, List.take_add ls k jB,
            ← hA, ← hB]
          simp [importLine_net_zero]
        rw [heqd]
        exact hd0
    · rw [if_neg hany]
      simp [depthBefore]

/-- Witness for the amended C1 on a well-formed concrete script. -/
theorem claim1_amended_witness :
    importInsertDepth c1GoodSource = 0 ∧ trackingInsertDepth c1GoodSource = 0 := by
  apply claim1_amended
  · decide
  · intro i h
    have hlsx : replacedLines c1GoodSource =
        [str "import os", str "x = 1", str "def main():", str "    y = 2"] := by decide
    rw [hlsx] at h ⊢
    rcases i with _ | _ | _ | _ | n
    · exact absurd h (by decide)
    · exact absurd h (by decide)
    · decide
    · exact absurd h (by decide)
    · have hnone : ([str "import os", str "x = 1", str "def main():",
          str "    y = 2"] : List Str).getD (n + 4) [] = [] := by
        rw [List.getD_eq_getElem?_getD, List.getElem?_eq_none (by simp)]
        rfl
      rw [hnone] at h
      exact absurd h (by decide)

/-!
Resolution of the pipeline claims.
-/

/-- C5 counterexample.  When the temporary-file preparation step fails, the
sandboxed runner does not return a `success = false` result at all: the
cleanup in `finally` raises an unbound-local error (the claim says every
non-success case still returns a result dictionary). -/
theorem claim5_counterexample :
    ¬ ∃ res, execScriptSafely (.prepFailed (str "No space left on device")) 60 =
        Except.ok res := by
  simp [execScriptSafely]

/-- C5 amended.  Provided the temporary-script preparation succeeds, the
runner returns a result whose `success` is true exactly when the worker
thread finished within the timeout, the monitored run raised no exception,
and it returned a non-null result; every failing outcome carries exactly one
error entry.  (When preparation fails, the `finally` cleanup raises instead
of returning — see the counterexample.) -/
theorem claim5_amended (run : RunOutcome) (t : Nat) :
    (execScriptSafely (.prepared run) t).isOk = true ∧
      ∀ res, execScriptSafely (.prepared run) t = Except.ok res →
        ((res.success = true ↔
          (noTimeout (.prepared run) && noRunException (.prepared run) &&
            gotResult (.prepared run)) = true) ∧
          (res.success = false → res.errors.length = 1)) := by
  cases run with
  | timeout =>
    refine ⟨rfl, ?_⟩
    intro res hres
    rw [execScriptSafely] at hres
    cases hres
    simp [noTimeout, noRunException, gotResult]
  | exnRaised m =>
    refine ⟨rfl, ?_⟩
    intro res hres
    rw [execScriptSafely] at hres
    cases hres
    simp [noTimeout, noRunException, gotResult]
  | completed r =>
    cases r with
    | none =>
      refine ⟨rfl, ?_⟩
      intro res hres
      rw [execScriptSafely] at hres
      cases hres
      simp [noTimeout, noRunException, gotResult]
    | some rr =>
      refine ⟨rfl, ?_⟩
      intro res hres
      rw [execScriptSafely] at hres
      cases hres
      simp [noTimeout, noRunException, gotResult]

/-- Witness for the amended C5 at the timeout outcome. -/
theorem claim5_amended_witness :
    ((execScriptSafely (.prepared .timeout) 60).isOk = true) ∧
      ((⟨false, zeroSummary3, [timeoutMessage 60], []⟩ : ExecResult).success = true ↔
        (noTimeout (.prepared .timeout) && noRunException (.prepared .timeout) &&
          gotResult (.prepared .timeout)) = true) ∧
      ((⟨false, zeroSummary3, [timeoutMessage 60], []⟩ : ExecResult).success = false →
        (⟨false, zeroSummary3, [timeoutMessage 60], []⟩ : ExecResult).errors.length = 1) :=
  ⟨(claim5_amended .timeout 60).1, (claim5_amended .timeout 60).2 _ rfl⟩

/-- C8.  If report persistence is requested and the write fails, the failure
is recorded as a warning appended to the shared warnings list (which is the
very list stored in the result), the overall success flag is whatever the
validation computed, no `test_report_path` is set, and the error list is
untouched. -/
theorem claim8_persistence_warning (success : Bool) (tr : TestResultsFlags)
    (es : ExecutionSummary) (errors warnings : List Str) (elapsed : Nat) (m : Str) :
    (createTestResult success tr es errors warnings elapsed true (.error m)).success
        = success ∧
      (createTestResult success tr es errors warnings elapsed true (.error m)).warnings
        = warnings ++ [failedSaveMessage m] ∧
      (createTestResult success tr es errors warnings elapsed true (.error m)).testReportPath
        = none ∧
      (createTestResult success tr es errors warnings elapsed true (.error m)).errors
        = errors := by
  simp [createTestResult]

/-! Field lemmas for `_create_test_result`. -/

theorem createTestResult_success (su : Bool) (tr : TestResultsFlags)
    (es : ExecutionSummary) (er wa : List Str) (el : Nat) (sv : Bool)
    (so : Except Str Str) :
    (createTestResult su tr es er wa el sv so).success = su := by
  unfold createTestResult
  split
  · split <;> rfl
  · rfl

theorem createTestResult_testResults (su : Bool) (tr : TestResultsFlags)
    (es : ExecutionSummary) (er wa : List Str) (el : Nat) (sv : Bool)
    (so : Except Str Str) :
    (createTestResult su tr es er wa el sv so).testResults = tr := by
  unfold createTestResult
  split
  · split <;> rfl
  · rfl

theorem createTestResult_errors (su : Bool) (tr : TestResultsFlags)
    (es : ExecutionSummary) (er wa : List Str) (el : Nat) (sv : Bool)
    (so : Except Str Str) :
    (createTestResult su tr es er wa el sv so).errors = er := by
  unfold createTestResult
  split
  · split <;> rfl
  · rfl

theorem createTestResult_executionSummary (su : Bool) (tr : TestResultsFlags)
    (es : ExecutionSummary) (er wa : List Str) (el : Nat) (sv : Bool)
    (so : Except Str Str) :
    (createTestResult su tr es er wa el sv so).executionSummary =
      { es with totalExecutionTime := el } := by
  unfold createTestResult
  split
  · split <;> rfl
  · rfl

theorem createTestResult_warnings_nosave (su : Bool) (tr : TestResultsFlags)
    (es : ExecutionSummary) (er wa : List Str) (el : Nat) (so : Except Str Str) :
    (createTestResult su tr es er wa el false so).warnings = wa := by
  unfold createTestResult
  rfl

/-- C3.  For every resolved non-empty submission whose source fails to parse,
the pipeline reports overall failure with `syntax_valid = false`, records
exactly the one syntax-error message (which embeds the line number), leaves
`imports_valid` and `simulation_successful` at `false`, and runs no later
stage: any environment agreeing on the resolution, parser, persistence and
clock yields the identical result — the import and execution oracles are
never consulted. -/
theorem claim3_syntax_failure (env env' : PipelineEnv) (et : Bool) (ts : Nat)
    (sv : Bool) (s : Str) (e : SyntaxErr)
    (hres : resolvedContent env.inputRes = some s)
    (hne : (pyStrip s).isEmpty = false)
    (hparse : env.parse s = some e)
    (hres' : env'.inputRes = env.inputRes)
    (hparse' : env'.parse = env.parse)
    (hsave' : env'.saveOutcome = env.saveOutcome)
    (helapsed' : env'.elapsed = env.elapsed) :
    (testPylabrobotScript env et ts sv).success = false ∧
      (testPylabrobotScript env et ts sv).testResults.syntaxValid = false ∧
      (testPylabrobotScript env et ts sv).testResults.importsValid = false ∧
      (testPylabrobotScript env et ts sv).testResults.simulationSuccessful = false ∧
      (testPylabrobotScript env et ts sv).errors = [syntaxErrorMessage e] ∧
      (∃ a b : Str, syntaxErrorMessage e = a ++ natToStr e.lineno ++ b) ∧
      testPylabrobotScript env' et ts sv = testPylabrobotScript env et ts sv := by
  have hnum : ∃ a b : Str, syntaxErrorMessage e = a ++ natToStr e.lineno ++ b := by
    refine ⟨str "Syntax Error: " ++ e.msg ++ str " at line ", [], ?_⟩
    simp [syntaxErrorMessage, List.append_assoc]
  have key : ∀ (envx : PipelineEnv) (tr : TestResultsFlags), envx.parse s = some e →
      testPipelineStages envx et ts sv tr s =
        createTestResult false tr initialSummary [syntaxErrorMessage e] []
          envx.elapsed sv envx.saveOutcome := by
    intro envx tr hpx
    simp only [testPipelineStages, hne, Bool.false_eq_true, if_false, hpx]
  cases hin : env.inputRes with
  | asString content =>
    have hcs : content = s := by
      rw [hin] at hres
      simpa [resolvedContent] using hres
    subst hcs
    have h1 : testPylabrobotScript env et ts sv =
        createTestResult false { initialFlags et with inputType := some (str "string") } initialSummary [syntaxErrorMessage e] [] env.elapsed sv env.saveOutcome := by
      simp only [testPylabrobotScript, hin]
      exact key env _ hparse
    have h2 : testPylabrobotScript env' et ts sv =
        createTestResult false { initialFlags et with inputType := some (str "string") } initialSummary [syntaxErrorMessage e] [] env.elapsed sv env.saveOutcome := by
      simp only [testPylabrobotScript, hres', hin]
      rw [key env' _ (by rw [hparse']; exact hparse), hsave', helapsed']
    rw [h1, h2]
    refine ⟨createTestResult_success _ _ _ _ _ _ _ _, ?_, ?_, ?_,
      createTestResult_errors _ _ _ _ _ _ _ _, hnum, rfl⟩ <;>
      simp [createTestResult_testResults, initialFlags]
  | asFile path rres =>
    cases rres with
    | ok content =>
      have hcs : content = s := by
        rw [hin] at hres
        simpa [resolvedContent] using hres
      subst hcs
      have h1 : testPylabrobotScript env et ts sv =
          createTestResult false { initialFlags et with inputType := some (str "file"), filePath := some path } initialSummary [syntaxErrorMessage e] [] env.elapsed sv env.saveOutcome := by
        simp only [testPylabrobotScript, hin]
        exact key env _ hparse
      have h2 : testPylabrobotScript env' et ts sv =
          createTestResult false { initialFlags et with inputType := some (str "file"), filePath := some path } initialSummary [syntaxErrorMessage e] [] env.elapsed sv env.saveOutcome := by
        simp only [testPylabrobotScript, hres', hin]
        rw [key env' _ (by rw [hparse']; exact hparse), hsave', helapsed']
      rw [h1, h2]
      refine ⟨createTestResult_success _ _ _ _ _ _ _ _, ?_, ?_, ?_,
        createTestResult_errors _ _ _ _ _ _ _ _, hnum, rfl⟩ <;>
        simp [createTestResult_testResults, initialFlags]
    | error m =>
      rw [hin] at hres
      simp [resolvedContent] at hres
  | processError m =>
    rw [hin] at hres
    simp [resolvedContent] at hres

/-- C4.  For a syntactically valid resolved submission whose import stage
produced errors, the pipeline does not abort: `imports_valid` is false, yet
the transformed script is executed and the result reflects the execution
outcome — `simulation_successful`, the operation counters, the error list
(import errors followed by execution errors when the run failed) and the
warning list (import warnings followed by execution warnings) aggregate both
stages. -/
theorem claim4_imports_nonfatal (env : PipelineEnv) (et : Bool) (ts : Nat) (s : Str)
    (er : ExecResult)
    (hres : resolvedContent env.inputRes = some s)
    (hne : (pyStrip s).isEmpty = false)
    (hparse : env.parse s = none)
    (himp : (env.importCheck s).errors ≠ [])
    (hexec : execScriptSafely (env.execOutcome (modifyScriptForTesting s et)) ts =
      Except.ok er) :
    (testPylabrobotScript env et ts false).testResults.importsValid = false ∧
      (testPylabrobotScript env et ts false).testResults.simulationSuccessful =
        er.success ∧
      (testPylabrobotScript env et ts false).executionSummary.operationsPerformed =
        er.summary.operationsPerformed ∧
      (testPylabrobotScript env et ts false).executionSummary.tipsUsed =
        er.summary.tipsUsed ∧
      (testPylabrobotScript env et ts false).executionSummary.liquidTransferred =
        er.summary.liquidTransferred ∧
      (testPylabrobotScript env et ts false).errors =
        (env.importCheck s).errors ++ (if er.success then [] else er.errors) ∧
      (testPylabrobotScript env et ts false).warnings =
        (env.importCheck s).warnings ++ er.warnings := by
  have hie : (env.importCheck s).errors.isEmpty = false := by
    cases h : (env.importCheck s).errors.isEmpty
    · rfl
    · exact absurd (List.isEmpty_iff.mp h) himp
  cases hin : env.inputRes with
  | asString content =>
    have hcs : content = s := by
      rw [hin] at hres
      simpa [resolvedContent] using hres
    subst hcs
    refine ⟨?_, ?_, ?_, ?_, ?_, ?_, ?_⟩ <;>
      simp only [testPylabrobotScript, hin, testPipelineStages, hne, Bool.false_eq_true,
        if_false, hparse, hexec, createTestResult_errors, createTestResult_warnings_nosave,
        createTestResult_testResults, createTestResult_executionSummary] <;>
      simp [hie]
  | asFile path rres =>
    cases rres with
    | ok content =>
      have hcs : content = s := by
        rw [hin] at hres
        simpa [resolvedContent] using hres
      subst hcs
      refine ⟨?_, ?_, ?_, ?_, ?_, ?_, ?_⟩ <;>
        simp only [testPylabrobotScript, hin, testPipelineStages, hne, Bool.false_eq_true,
          if_false, hparse, hexec, createTestResult_errors, createTestResult_warnings_nosave,
          createTestResult_testResults, createTestResult_executionSummary] <;>
        simp [hie]
    | error m =>
      rw [hin] at hres
      simp [resolvedContent] at hres
  | processError m =>
    rw [hin] at hres
    simp [resolvedContent] at hres

/-! Witnesses for C3 and C4. -/

/-- Witness for C3 on a concrete failing parse. -/
theorem claim3_syntax_failure_witness :
    (testPylabrobotScript c3Env false 60 false).success = false ∧
      (testPylabrobotScript c3Env false 60 false).testResults.syntaxValid = false ∧
      (testPylabrobotScript c3Env false 60 false).testResults.importsValid = false ∧
      (testPylabrobotScript c3Env false 60 false).testResults.simulationSuccessful
        = false ∧
      (testPylabrobotScript c3Env false 60 false).errors = [syntaxErrorMessage c3Err] ∧
      (∃ a b : Str, syntaxErrorMessage c3Err = a ++ natToStr c3Err.lineno ++ b) ∧
      testPylabrobotScript c3Env false 60 false =
        testPylabrobotScript c3Env false 60 false :=
  claim3_syntax_failure c3Env c3Env false 60 false (str "def f(:") c3Err rfl
    (by decide) rfl rfl rfl rfl rfl

/-- Witness for C4 on a concrete failing import with a successful run. -/
theorem claim4_imports_nonfatal_witness :
    (testPylabrobotScript c4Env false 60 false).testResults.importsValid = false ∧
      (testPylabrobotScript c4Env false 60 false).testResults.simulationSuccessful =
        (⟨true, ⟨0, 0, 0⟩, [], [str "wexec"]⟩ : ExecResult).success ∧
      (testPylabrobotScript c4Env false 60 false).executionSummary.operationsPerformed =
        (⟨true, ⟨0, 0, 0⟩, [], [str "wexec"]⟩ : ExecResult).summary.operationsPerformed ∧
      (testPylabrobotScript c4Env false 60 false).executionSummary.tipsUsed =
        (⟨true, ⟨0, 0, 0⟩, [], [str "wexec"]⟩ : ExecResult).summary.tipsUsed ∧
      (testPylabrobotScript c4Env false 60 false).executionSummary.liquidTransferred =
        (⟨true, ⟨0, 0, 0⟩, [], [str "wexec"]⟩ : ExecResult).summary.liquidTransferred ∧
      (testPylabrobotScript c4Env false 60 false).errors =
        (c4Env.importCheck (str "import pylabrobot.bogus")).errors ++
          (if (⟨true, ⟨0, 0, 0⟩, [], [str "wexec"]⟩ : ExecResult).success then []
            else (⟨true, ⟨0, 0, 0⟩, [], [str "wexec"]⟩ : ExecResult).errors) ∧
      (testPylabrobotScript c4Env false 60 false).warnings =
        (c4Env.importCheck (str "import pylabrobot.bogus")).warnings ++
          (⟨true, ⟨0, 0, 0⟩, [], [str "wexec"]⟩ : ExecResult).warnings :=
  claim4_imports_nonfatal c4Env false 60 (str "import pylabrobot.bogus")
    ⟨true, ⟨0, 0, 0⟩, [], [str "wexec"]⟩ rfl (by decide) rfl (by decide) rfl

/-! Membership lemmas for C6. -/

theorem mem_warnings_createTestResult {m : Str} (su : Bool) (tr : TestResultsFlags)
    (es : ExecutionSummary) (er wa : List Str) (el : Nat) (sv : Bool)
    (so : Except Str Str) (h : m ∈ wa) :
    m ∈ (createTestResult su tr es er wa el sv so).warnings := by
  unfold createTestResult
  split
  · split
    · simpa using h
    · exact List.mem_append.mpr (Or.inl h)
  · simpa using h

theorem mem_warnings_createTestResult_save {m : Str} (su : Bool)
    (tr : TestResultsFlags) (es : ExecutionSummary) (er wa : List Str) (el : Nat)
    (sv : Bool) (so : Except Str Str) (h : m ∈ saveFailureMessages sv so) :
    m ∈ (createTestResult su tr es er wa el sv so).warnings := by
  cases sv with
  | false => simp [saveFailureMessages] at h
  | true =>
    cases so with
    | ok p => simp [saveFailureMessages] at h
    | error x =>
      simp only [saveFailureMessages, if_pos] at h
      have hme : m = failedSaveMessage x := by simpa using h
      subst hme
      unfold createTestResult
      simp

/-- Core of the amended C6: on resolved content, every recorded stage failure
message and every save failure message lands in the error or warning list of
the stage result. -/
theorem claim6_stages_mem (env : PipelineEnv) (et : Bool) (ts : Nat) (sv : Bool)
    (tr : TestResultsFlags) (content : Str) (m : Str)
    (hm : m ∈ recordedStageMessages env et ts content ++
      saveFailureMessages sv env.saveOutcome) :
    m ∈ (testPipelineStages env et ts sv tr content).errors ∨
      m ∈ (testPipelineStages env et ts sv tr content).warnings := by
  rcases List.mem_append.mp hm with hstage | hsave
  · by_cases hempty : (pyStrip content).isEmpty
    · rw [recordedStageMessages, if_pos hempty] at hstage
      simp only [testPipelineStages, hempty, if_true]
      left
      rw [createTestResult_errors]
      exact hstage
    · rw [recordedStageMessages, if_neg hempty] at hstage
      cases hp : env.parse content with
      | some e =>
        simp only [hp] at hstage
        simp only [testPipelineStages, if_neg hempty, hp]
        left
        rw [createTestResult_errors]
        exact hstage
      | none =>
        simp only [hp] at hstage
        simp only [testPipelineStages, if_neg hempty, hp]
        rcases List.mem_append.mp hstage with himpPart | hexecPart
        · by_cases hie : (env.importCheck content).errors.isEmpty
          · rw [if_pos hie] at himpPart
            simp at himpPart
          · rw [if_neg hie] at himpPart
            rcases List.mem_append.mp himpPart with herr | hwarn
            · left
              rw [Bool.not_eq_true] at hie
              simp only [hie, Bool.false_eq_true, if_false]
              cases hex : execScriptSafely
                  (env.execOutcome (modifyScriptForTesting content et)) ts with
              | error mm =>
                rw [createTestResult_errors]
                exact List.mem_append.mpr (Or.inl herr)
              | ok er =>
                rw [createTestResult_errors]
                exact List.mem_append.mpr (Or.inl herr)
            · right
              rw [Bool.not_eq_true] at hie
              simp only [hie, Bool.false_eq_true, if_false]
              cases hex : execScriptSafely
                  (env.execOutcome (modifyScriptForTesting content et)) ts with
              | error mm =>
                exact mem_warnings_createTestResult _ _ _ _ _ _ _ _ hwarn
              | ok er =>
                exact mem_warnings_createTestResult _ _ _ _ _ _ _ _
                  (List.mem_append.mpr (Or.inl hwarn))
        · rw [execFailureMessages] at hexecPart
          cases hex : execScriptSafely
              (env.execOutcome (modifyScriptForTesting content et)) ts with
          | error mm =>
            rw [hex] at hexecPart
            left
            rw [createTestResult_errors]
            exact List.mem_append.mpr (Or.inr hexecPart)
          | ok er =>
            rw [hex] at hexecPart
            left
            rw [createTestResult_errors]
            exact List.mem_append.mpr (Or.inr hexecPart)
  · by_cases hempty : (pyStrip content).isEmpty
    · simp only [testPipelineStages, hempty, if_true]
      exact Or.inr (mem_warnings_createTestResult_save _ _ _ _ _ _ _ _ hsave)
    · cases hp : env.parse content with
      | some e =>
        simp only [testPipelineStages, if_neg hempty, hp]
        exact Or.inr (mem_warnings_createTestResult_save _ _ _ _ _ _ _ _ hsave)
      | none =>
        simp only [testPipelineStages, if_neg hempty, hp]
        cases hex : execScriptSafely
            (env.execOutcome (modifyScriptForTesting content et)) ts with
        | error mm =>
          exact Or.inr (mem_warnings_createTestResult_save _ _ _ _ _ _ _ _ hsave)
        | ok er =>
          exact Or.inr (mem_warnings_createTestResult_save _ _ _ _ _ _ _ _ hsave)

/-- C6 counterexample.  With an import stage that yields a warning but no
error, a parsing submission and a successful run, the warning "w" is an
internal failure entry (an exception-throwing lookup) yet appears in neither
the returned error list nor the returned warning list: the code extends the
shared lists only when the import stage also produced errors. -/
theorem claim6_counterexample :
    str "w" ∈ runFailureMessages c6Env false 60 false ∧
      str "w" ∉ (testPylabrobotScript c6Env false 60 false).errors ∧
      str "w" ∉ (testPylabrobotScript c6Env false 60 false).warnings := by
  refine ⟨?_, ?_, ?_⟩ <;> decide

/-- C6 amended.  The pipeline always returns the structured result (the
embedding is a total function), and every internal failure message except
import-stage warnings dropped when that stage reports zero errors appears in
the returned error or warning lists. -/
theorem claim6_amended (env : PipelineEnv) (et : Bool) (ts : Nat) (sv : Bool) :
    ∀ m ∈ recordedFailureMessages env et ts sv,
      m ∈ (testPylabrobotScript env et ts sv).errors ∨
        m ∈ (testPylabrobotScript env et ts sv).warnings := by
  intro m hm
  rw [recordedFailureMessages] at hm
  cases hin : env.inputRes with
  | processError mm =>
    rw [hin] at hm
    simp only [testPylabrobotScript, hin]
    rcases List.mem_append.mp hm with h1 | h2
    · left
      rw [createTestResult_errors]
      exact h1
    · exact Or.inr (mem_warnings_createTestResult_save _ _ _ _ _ _ _ _ h2)
  | asFile path rres =>
    cases rres with
    | error mm =>
      rw [hin] at hm
      simp only [testPylabrobotScript, hin]
      rcases List.mem_append.mp hm with h1 | h2
      · left
        rw [createTestResult_errors]
        exact h1
      · exact Or.inr (mem_warnings_createTestResult_save _ _ _ _ _ _ _ _ h2)
    | ok content =>
      rw [hin] at hm
      simp only [testPylabrobotScript, hin]
      exact claim6_stages_mem env et ts sv _ content m hm
  | asString content =>
    rw [hin] at hm
    simp only [testPylabrobotScript, hin]
    exact claim6_stages_mem env et ts sv _ content m hm

/-- Witness for the amended C6: a recorded import error appears in the
returned lists. -/
theorem claim6_amended_witness :
    str "imperr" ∈ (testPylabrobotScript c6wEnv false 60 true).errors ∨
      str "imperr" ∈ (testPylabrobotScript c6wEnv false 60 true).warnings :=
  claim6_amended c6wEnv false 60 true (str "imperr") (by decide)

/-!
Resolution of the wetlab-store claims.
-/

theorem rowKey_applyConflictUpdate (row : WetlabRow) (r : WetlabRecord) :
    rowKey (applyConflictUpdate row r) = rowKey row := rfl

theorem rowKey_freshRow (t : List WetlabRow) (r : WetlabRecord) :
    rowKey (freshRow t r) = recordKey r := rfl

theorem upsert_preserves_countP (t : List WetlabRow) (r : WetlabRecord)
    (hany : t.any (fun row => decide (rowKey row = recordKey r)) = true)
    (k : WetlabKey) :
    (upsertWetlabRecord t r).countP (fun row => decide (rowKey row = k)) =
      t.countP (fun row => decide (rowKey row = k)) := by
  unfold upsertWetlabRecord
  rw [if_pos hany, List.countP_map]
  apply List.countP_congr
  intro row _
  by_cases h : rowKey row = recordKey r
  · simp [Function.comp, h, rowKey_applyConflictUpdate]
  · simp [Function.comp, h]

theorem upsert_key_present (t : List WetlabRow) (r : WetlabRecord) :
    (upsertWetlabRecord t r).any
      (fun row => decide (rowKey row = recordKey r)) = true := by
  unfold upsertWetlabRecord
  by_cases hany : t.any (fun row => decide (rowKey row = recordKey r)) = true
  · rw [if_pos hany]
    rcases List.any_eq_true.mp hany with ⟨row, hmem, hrow⟩
    apply List.any_eq_true.mpr
    refine ⟨if rowKey row = recordKey r then applyConflictUpdate row r else row,
      List.mem_map_of_mem _ hmem, ?_⟩
    have hk : rowKey row = recordKey r := of_decide_eq_true hrow
    simp [hk, rowKey_applyConflictUpdate]
  · rw [if_neg hany]
    apply List.any_eq_true.mpr
    exact ⟨freshRow t r, List.mem_append.mpr (Or.inr (List.mem_cons_self _ _)),
      by simp [rowKey_freshRow]⟩

theorem countP_key_eq_one_of_unique (t : List WetlabRow) (k : WetlabKey)
    (huniq : uniqueKeys t)
    (hex : t.any (fun row => decide (rowKey row = k)) = true) :
    t.countP (fun row => decide (rowKey row = k)) = 1 := by
  induction t with
  | nil => simp at hex
  | cons x xs ih =>
    rw [List.any_cons] at hex
    rw [List.countP_cons]
    rcases List.pairwise_cons.mp huniq with ⟨hx, hxs⟩
    by_cases hxk : rowKey x = k
    · have h0 : xs.countP (fun row => decide (rowKey row = k)) = 0 := by
        rw [List.countP_eq_zero]
        intro row hrow
        simp only [decide_eq_true_eq]
        intro he
        exact (hx row hrow) (hxk.trans he.symm)
      simp [h0, hxk]
    · have hex' : xs.any (fun row => decide (rowKey row = k)) = true := by
        rcases Bool.or_eq_true_iff.mp hex with h1 | h1
        · exact absurd (of_decide_eq_true h1) hxk
        · exact h1
      simp [hxk, ih hxs hex']

theorem upsert_preserves_unique (t : List WetlabRow) (r : WetlabRecord)
    (huniq : uniqueKeys t) : uniqueKeys (upsertWetlabRecord t r) := by
  unfold upsertWetlabRecord
  by_cases hany : t.any (fun row => decide (rowKey row = recordKey r)) = true
  · rw [if_pos hany]
    unfold uniqueKeys at huniq ⊢
    refine List.Pairwise.map _ (fun a b hab => ?_) huniq
    by_cases ha : rowKey a = recordKey r <;> by_cases hb : rowKey b = recordKey r
    · exact absurd (ha.trans hb.symm) hab
    · simp only [ha, if_true, if_neg hb, rowKey_applyConflictUpdate]
      rw [← ha]
      exact hab
    · simp only [if_neg ha, hb, if_true, rowKey_applyConflictUpdate]
      rw [← hb]
      exact hab
    · simp only [if_neg ha, if_neg hb]
      exact hab
  · rw [if_neg hany]
    unfold uniqueKeys at huniq ⊢
    apply List.pairwise_append.mpr
    refine ⟨huniq, List.pairwise_singleton _ _, ?_⟩
    intro a ha b hb
    have hb' : b = freshRow t r := by simpa using hb
    subst hb'
    rw [rowKey_freshRow]
    have hfalse := List.any_eq_false.mp (Bool.not_eq_true _ ▸ hany) a ha
    simpa using hfalse

/-- C9.  Upserting twice with the same five-field composite key and different
measurement values into a table whose keys are unique (the schema's UNIQUE
constraint) leaves exactly one stored row for that key, and that row carries
the second upsert's measurement value. -/
theorem claim9_upsert_twice (t : List WetlabRow) (r1 r2 : WetlabRecord)
    (huniq : uniqueKeys t)
    (hkey : recordKey r1 = recordKey r2)
    (hval : r1.measurementValue ≠ r2.measurementValue) :
    (upsertWetlabRecord (upsertWetlabRecord t r1) r2).countP
        (fun row => decide (rowKey row = recordKey r2)) = 1 ∧
      ∀ row ∈ upsertWetlabRecord (upsertWetlabRecord t r1) r2,
        rowKey row = recordKey r2 → row.measurementValue = r2.measurementValue := by
  have hp1 := upsert_key_present t r1
  set t1 := upsertWetlabRecord t r1 with ht1
  have hp2 : t1.any (fun row => decide (rowKey row = recordKey r2)) = true := by
    rw [← hkey]
    exact hp1
  constructor
  · rw [upsert_preserves_countP t1 r2 hp2]
    exact countP_key_eq_one_of_unique _ _ (upsert_preserves_unique t r1 huniq) hp2
  · intro row hrow hrk
    simp only [upsertWetlabRecord, hp2, if_true] at hrow
    rcases List.mem_map.mp hrow with ⟨row', _, rfl⟩
    by_cases h : rowKey row' = recordKey r2
    · simp [h, applyConflictUpdate]
    · rw [if_neg h] at hrk
      exact absurd hrk h

/-- Witness for C9: two upserts into the empty table. -/
theorem claim9_upsert_twice_witness :
    (upsertWetlabRecord (upsertWetlabRecord [] c9r1) c9r2).countP
      (fun row => decide (rowKey row = recordKey c9r2)) = 1 :=
  (claim9_upsert_twice [] c9r1 c9r2 List.Pairwise.nil (by decide) (by decide)).1

/-! C10: the query limit clamp. -/

theorem insertOrd_length {α : Type} (le : α → α → Bool) (x : α) (l : List α) :
    (insertOrd le x l).length = l.length + 1 := by
  induction l with
  | nil => rfl
  | cons y ys ih =>
    rw [insertOrd]
    by_cases h : le x y
    · simp [h]
    · simp [h, ih]

theorem sortOrd_length {α : Type} (le : α → α → Bool) (l : List α) :
    (sortOrd le l).length = l.length := by
  induction l with
  | nil => rfl
  | cons x xs ih =>
    rw [sortOrd, insertOrd_length, ih]
    rfl

/-- C10.  The effective row limit of `query_wetlab_results` is
`max(1, int(limit))`: the returned row count is the matching count clamped by
that bound, a non-positive limit behaves exactly like limit 1, and with a
non-positive limit the query still returns a row whenever any row matches. -/
theorem claim10_query_limit (t : List WetlabRow) (f : WetlabFilters) (lim : Int) :
    (queryWetlabRows t f lim).length =
        min (Int.toNat (max 1 lim)) (matchingRows t f).length ∧
      (lim ≤ 0 → queryWetlabRows t f lim = queryWetlabRows t f 1) ∧
      (lim ≤ 0 → matchingRows t f ≠ [] → queryWetlabRows t f lim ≠ []) := by
  have hlen : (queryWetlabRows t f lim).length =
      min (Int.toNat (max 1 lim)) (matchingRows t f).length := by
    simp [queryWetlabRows, List.length_take, sortOrd_length]
  refine ⟨hlen, ?_, ?_⟩
  · intro hle
    have hmax : max 1 lim = 1 := max_eq_left (by omega)
    simp [queryWetlabRows, hmax]
  · intro hle hne
    intro hcon
    rw [hcon] at hlen
    have hmax : max 1 lim = 1 := max_eq_left (by omega)
    rw [hmax] at hlen
    have hpos : 0 < (matchingRows t f).length := List.length_pos.mpr hne
    simp at hlen
    omega

/-- Witness for C10: a one-row table queried with limit 0. -/
theorem claim10_query_limit_witness :
    queryWetlabRows [c10Row] noFilters 0 = queryWetlabRows [c10Row] noFilters 1 ∧
      queryWetlabRows [c10Row] noFilters 0 ≠ [] :=
  ⟨(claim10_query_limit [c10Row] noFilters 0).2.1 (by decide),
    (claim10_query_limit [c10Row] noFilters 0).2.2 (by decide) (by decide)⟩
